import Mathlib

/-! # Statistics engine of the Outlook e-mail analyzer

Shallow embedding of `outlook_analyzer.go`: the record type `EmailInfo`, the
normalizer `extractEmailInfo`, the retrieval loops `getEmailsInDateRange` and
`getSentEmailsInDateRange`, and the four computations `analyzeReadStatus`,
`findRepliedEmails`, `getTopSendersAndRecipients` and `classifyEmails`.

Conventions of the embedding.

* Every string the program reads comes from `VARIANT.ToString()`, which converts
  a UTF-16 `BSTR` and therefore always yields valid UTF-8.  Such a string is a
  `GoString`, the list of its runes.  The only string that can stop being valid
  UTF-8 is `Body`, which is cut at a byte index; it is kept as its bytes.
* `time.Time` values are instants: an `Int` counting nanoseconds since the zero
  time (January 1, year 1, 00:00:00 UTC).  The zero value of `time.Time` is `0`.
* Go `int` counters are `Nat`: every counter is bounded by the length of a slice.
* A Go map is a list of entries with distinct keys.  The order in which a `range`
  loop visits it and the function `sort.Slice` are parameters of
  `getTopSendersAndRecipients`, constrained by `RangeVisits` and `SortsSlice`.
* The Unicode case tables behind `unicode.ToLower` and the `float64` operations
  of `analyzeReadStatus` are parameters as well.  `binary64Ops` gives the
  operations of the machine: exact rational results rounded to binary64, to
  nearest with ties to even.
-/

namespace EmailAnalyzer

/-! ## Strings -/

/-- A Go string that holds valid UTF-8, as the list of its runes. -/
abbrev GoString := List Char

/-- Go `unicode.ToLower`.  ASCII runes are handled inline by the Go function; every
other rune goes through the Unicode case tables of the Go runtime, which are the
parameter `caseTable`. -/
def unicodeToLower (caseTable : Char → Char) (r : Char) : Char :=
  if r.toNat ≤ 0x7F then
    if 'A'.toNat ≤ r.toNat ∧ r.toNat ≤ 'Z'.toNat then Char.ofNat (r.toNat + 32) else r
  else caseTable r

/-- Go `strings.ToLower` on valid UTF-8: every rune is mapped by `unicode.ToLower`. -/
def stringsToLower (caseTable : Char → Char) (s : GoString) : GoString :=
  s.map (unicodeToLower caseTable)

/-- The class `\s` of Go regular expressions: tab, line feed, form feed, carriage
return and space. -/
def isRegexpSpace (c : Char) : Bool :=
  c.toNat = 9 || c.toNat = 10 || c.toNat = 12 || c.toNat = 13 || c.toNat = 32

/-- The three alternatives of the group in
`regexp.MustCompile("^(re:|回复:|回覆:)\\s*")`, in the order they are tried. -/
def replyPrefixes : List GoString :=
  ["re:".toList, "回复:".toList, "回覆:".toList]

/-- The remainder of `s` after the first of the alternatives that is a prefix of `s`;
`none` when no alternative is. -/
def stripFirstMatch : List GoString → GoString → Option GoString
  | [], _ => none
  | p :: ps, s => if p.isPrefixOf s then some (s.drop p.length) else stripFirstMatch ps s

/-- The call `rePrefix.ReplaceAllString(s, "")`.  The pattern is anchored by `^`, so it
matches at offset 0 or nowhere: when one alternative is a prefix of `s`, that
prefix and the longest run of `\s` runes after it are deleted; otherwise `s` is
returned unchanged. -/
def rePrefixReplaceAllString (s : GoString) : GoString :=
  match stripFirstMatch replyPrefixes s with
  | some rest => rest.dropWhile isRegexpSpace
  | none => s

/-! ## Time -/

/-- An instant: nanoseconds since the zero time of Go. -/
abbrev Time := Int

/-- The duration `24 * time.Hour` in nanoseconds. -/
def day : Int := 24 * (60 * 60 * 1000000000)

/-- Go `t.Truncate(d)` for a positive `d`: `t` rounded down to a multiple of `d` since
the zero time. -/
def Time.Truncate (t : Time) (d : Int) : Time :=
  if d ≤ 0 then t else t - t % d

/-- Go `t.Equal(u)`: the same instant. -/
def Time.Equal (t u : Time) : Bool := decide (t = u)

/-- Go `t.Before(u)`. -/
def Time.Before (t u : Time) : Bool := decide (t < u)

/-- Go `t.After(u)`. -/
def Time.After (t u : Time) : Bool := decide (u < t)

/-- Go `t.AddDate(0, 0, 1)` for a time in UTC.  The two dates the program passes
around come from `time.Parse`, which returns UTC times, where the next calendar
day is exactly 24 hours later. -/
def Time.AddDate001 (t : Time) : Time := t + day

/-! ## Records -/

/-- The struct `EmailInfo`. -/
structure EmailInfo where
  Subject : GoString
  SenderEmail : GoString
  SenderName : GoString
  ReceivedTime : Time
  SentTime : Time
  IsRead : Bool
  Body : List UInt8
  To : GoString
  CC : GoString
  deriving DecidableEq

/-- The zero value `EmailInfo{}`. -/
def EmailInfo.zero : EmailInfo :=
  { Subject := [], SenderEmail := [], SenderName := [], ReceivedTime := 0, SentTime := 0,
    IsRead := false, Body := [], To := [], CC := [] }

/-- The struct `SenderCount`. -/
structure SenderCount where
  Email : GoString
  Count : Nat
  deriving DecidableEq

/-! ## Go maps -/

/-- A Go `map[K]V`: a list of entries with pairwise different keys.  The position of
an entry in the list has no meaning for the program; a `range` loop over the map
visits the entries in an order of its own (see `RangeVisits`). -/
abbrev GoMap (κ ν : Type) := List (κ × ν)

/-- The lookup `v, exists := m[k]`. -/
def GoMap.get? {κ ν : Type} [DecidableEq κ] : GoMap κ ν → κ → Option ν
  | [], _ => none
  | (k1, v1) :: rest, k => if k1 = k then some v1 else GoMap.get? rest k

/-- The assignment `m[k] = v`. -/
def GoMap.set {κ ν : Type} [DecidableEq κ] : GoMap κ ν → κ → ν → GoMap κ ν
  | [], k, v => [(k, v)]
  | (k1, v1) :: rest, k, v =>
    if k1 = k then (k, v) :: rest else (k1, v1) :: GoMap.set rest k v

/-! ## Reply correlation -/

/-- The key computed in both loops of `findRepliedEmails`:
`rePrefix.ReplaceAllString(strings.ToLower(subject), "")`. -/
def cleanSubject (caseTable : Char → Char) (subject : GoString) : GoString :=
  rePrefixReplaceAllString (stringsToLower caseTable subject)

/-- Body of the first loop of `findRepliedEmails`. -/
def recordSent (caseTable : Char → Char) (sentSubjects : GoMap GoString (List Time))
    (sentEmail : EmailInfo) : GoMap GoString (List Time) :=
  let subject := stringsToLower caseTable sentEmail.Subject
  let cleanSubject := rePrefixReplaceAllString subject
  let sentDate := sentEmail.SentTime.Truncate day
  let sentSubjects :=
    match sentSubjects.get? cleanSubject with
    | some _ => sentSubjects
    | none => sentSubjects.set cleanSubject []
  sentSubjects.set cleanSubject ((sentSubjects.get? cleanSubject).getD [] ++ [sentDate])

/-- The map `sentSubjects` after the first loop of `findRepliedEmails`. -/
def buildSentSubjects (caseTable : Char → Char) (sentEmails : List EmailInfo) :
    GoMap GoString (List Time) :=
  sentEmails.foldl (recordSent caseTable) []

/-- The inner loop of `findRepliedEmails`: `true` when some `sentDate` equals
`receivedDate` (the loop increments once and breaks). -/
def anySameDay (sentDates : List Time) (receivedDate : Time) : Bool :=
  match sentDates with
  | [] => false
  | sentDate :: rest => if sentDate.Equal receivedDate then true else anySameDay rest receivedDate

/-- Body of the second loop of `findRepliedEmails`, on the pair
`(repliedCount, sameDayReplies)`. -/
def correlate (caseTable : Char → Char) (sentSubjects : GoMap GoString (List Time))
    (acc : Nat × Nat) (email : EmailInfo) : Nat × Nat :=
  if !email.IsRead then acc
  else
    let subject := stringsToLower caseTable email.Subject
    let cleanSubject := rePrefixReplaceAllString subject
    let receivedDate := email.ReceivedTime.Truncate day
    match sentSubjects.get? cleanSubject with
    | some sentDates =>
      let repliedCount := acc.1 + 1
      if anySameDay sentDates receivedDate then (repliedCount, acc.2 + 1)
      else (repliedCount, acc.2)
    | none => acc

/-- The function `findRepliedEmails`: `(repliedCount, sameDayReplies)`. -/
def findRepliedEmails (caseTable : Char → Char) (receivedEmails sentEmails : List EmailInfo) :
    Nat × Nat :=
  if sentEmails.length = 0 then (0, 0)
  else
    let sentSubjects := buildSentSubjects caseTable sentEmails
    receivedEmails.foldl (correlate caseTable sentSubjects) (0, 0)

/-! ### Specification side of the reply correlation -/

/-- Truncated sending day of a sent record. -/
def sentDay (e : EmailInfo) : Time := e.SentTime.Truncate day

/-- Truncated receiving day of a received record. -/
def receivedDay (e : EmailInfo) : Time := e.ReceivedTime.Truncate day

/-- Sent days recorded under key `k`, in the order of the sent records. -/
def daysOfKey (ct : Char → Char) (k : GoString) (sent : List EmailInfo) : List Time :=
  (sent.filter (fun s => decide (cleanSubject ct s.Subject = k))).map sentDay

/-- A read received record whose key is the key of some sent record. -/
def isReplied (ct : Char → Char) (sent : List EmailInfo) (e : EmailInfo) : Bool :=
  e.IsRead && sent.any (fun s => decide (cleanSubject ct s.Subject = cleanSubject ct e.Subject))

/-- A read received record for which some sent record has the same key and the same
truncated day. -/
def isSameDayReply (ct : Char → Char) (sent : List EmailInfo) (e : EmailInfo) : Bool :=
  e.IsRead && sent.any (fun s =>
    decide (cleanSubject ct s.Subject = cleanSubject ct e.Subject) &&
      decide (sentDay s = receivedDay e))

/-- A received or sent record with the given subject and times, other fields zero. -/
def mkEmail (subject : String) (isRead : Bool) (received sent : Time) : EmailInfo :=
  { EmailInfo.zero with
    Subject := subject.toList, IsRead := isRead, ReceivedTime := received, SentTime := sent }

/-- The instant 2024-01-05 00:00:00 UTC plus `h` hours: 738889 days after the zero time. -/
def jan5 (h : Int) : Time := 738889 * day + h * 3600000000000

/-- The sent record of the example: subject "Re: Budget", sent 2024-01-05 17:00. -/
def budgetSent : List EmailInfo := [mkEmail "Re: Budget" false 0 (jan5 17)]

/-- A read received record with subject "Budget", received `h` hours after
2024-01-05 00:00. -/
def budgetReceived (h : Int) : List EmailInfo := [mkEmail "Budget" true (jan5 h) 0]

/-! ## UTF-8 -/

/-- Go `utf8.RuneError`, the rune U+FFFD. -/
def RuneError : Char := Char.ofNat 0xFFFD

/-- The table `first` of Go package `utf8` joined with `acceptRanges`: for a leading
byte of a multi-byte sequence, the length of the sequence and the range accepted
for its second byte. -/
def leadInfo (p0 : Nat) : Option (Nat × Nat × Nat) :=
  if 0xC2 ≤ p0 ∧ p0 ≤ 0xDF then some (2, 0x80, 0xBF)
  else if p0 = 0xE0 then some (3, 0xA0, 0xBF)
  else if p0 = 0xED then some (3, 0x80, 0x9F)
  else if 0xE1 ≤ p0 ∧ p0 ≤ 0xEF then some (3, 0x80, 0xBF)
  else if p0 = 0xF0 then some (4, 0x90, 0xBF)
  else if 0xF1 ≤ p0 ∧ p0 ≤ 0xF3 then some (4, 0x80, 0xBF)
  else if p0 = 0xF4 then some (4, 0x80, 0x8F)
  else none

/-- A continuation byte `0x80..0xBF`. -/
def isContinuation (b : Nat) : Bool := decide (0x80 ≤ b) && decide (b ≤ 0xBF)

/-- Go `utf8.DecodeRuneInString`: the first rune of `p` and its width in bytes; an
invalid or truncated sequence gives `(RuneError, 1)`, the empty string
`(RuneError, 0)`. -/
def decodeRune (p : List UInt8) : Char × Nat :=
  match p with
  | [] => (RuneError, 0)
  | p0 :: t =>
    if p0.toNat < 0x80 then (Char.ofNat p0.toNat, 1)
    else
      match leadInfo p0.toNat with
      | none => (RuneError, 1)
      | some (sz, lo, hi) =>
        match t with
        | [] => (RuneError, 1)
        | b1 :: t1 =>
          if b1.toNat < lo ∨ hi < b1.toNat then (RuneError, 1)
          else if sz ≤ 2 then (Char.ofNat ((p0.toNat % 32) * 64 + b1.toNat % 64), 2)
          else
            match t1 with
            | [] => (RuneError, 1)
            | b2 :: t2 =>
              if !isContinuation b2.toNat then (RuneError, 1)
              else if sz ≤ 3 then
                (Char.ofNat ((p0.toNat % 16) * 4096 + (b1.toNat % 64) * 64 + b2.toNat % 64), 3)
              else
                match t2 with
                | [] => (RuneError, 1)
                | b3 :: _ =>
                  if !isContinuation b3.toNat then (RuneError, 1)
                  else
                    (Char.ofNat ((p0.toNat % 8) * 262144 + (b1.toNat % 64) * 4096
                      + (b2.toNat % 64) * 64 + b3.toNat % 64), 4)

/-- The runes visited by `for _, c := range s`, where `skip` bytes of `s` still belong
to the rune decoded last. -/
def decodeRunesFrom : Nat → List UInt8 → List Char
  | _, [] => []
  | skip + 1, _ :: t => decodeRunesFrom skip t
  | 0, p0 :: t => (decodeRune (p0 :: t)).1 :: decodeRunesFrom ((decodeRune (p0 :: t)).2 - 1) t

/-- The runes of a Go string given by its bytes, as a `range` loop sees them: every
byte that starts no valid sequence counts as one `RuneError`. -/
def decodeRunes (s : List UInt8) : List Char := decodeRunesFrom 0 s

/-- UTF-8 encoding of one rune (Go `utf8.AppendRune` on a valid rune). -/
def encodeRune (c : Char) : List UInt8 :=
  let n := c.toNat
  if n < 0x80 then [UInt8.ofNat n]
  else if n < 0x800 then [UInt8.ofNat (0xC0 + n / 64), UInt8.ofNat (0x80 + n % 64)]
  else if n < 0x10000 then
    [UInt8.ofNat (0xE0 + n / 4096), UInt8.ofNat (0x80 + n / 64 % 64), UInt8.ofNat (0x80 + n % 64)]
  else
    [UInt8.ofNat (0xF0 + n / 262144), UInt8.ofNat (0x80 + n / 4096 % 64),
      UInt8.ofNat (0x80 + n / 64 % 64), UInt8.ofNat (0x80 + n % 64)]

/-- The bytes of a valid UTF-8 string. -/
def utf8Bytes (s : GoString) : List UInt8 := s.flatMap encodeRune

/-- Go `strings.ToLower` on the bytes of a string.  The result is always valid UTF-8:
the runes of the argument mapped by `unicode.ToLower`, a byte outside every valid
sequence having become `RuneError` first (`strings.Map`). -/
def bytesToLower (caseTable : Char → Char) (s : List UInt8) : GoString :=
  (decodeRunes s).map (unicodeToLower caseTable)

/-- Go `strings.Contains(s, substr)` on valid UTF-8 strings: `substr` occurs in `s` as
a contiguous run. -/
def stringsContains : GoString → GoString → Bool
  | [], substr => substr.isPrefixOf []
  | c :: s, substr => substr.isPrefixOf (c :: s) || stringsContains s substr

/-! ## Keyword classification -/

/-- The slice `approvalKeywords` of `classifyEmails`. -/
def approvalKeywords : List GoString :=
  ["批准", "审批", "确认", "同意", "授权", "approve", "approval", "authorize", "confirm",
    "核准", "签核"].map String.toList

/-- The slice `responseKeywords` of `classifyEmails`. -/
def responseKeywords : List GoString :=
  ["回复", "回应", "反馈", "意见", "建议", "reply", "response", "feedback", "urgent", "紧急",
    "请回复", "请回覆"].map String.toList

/-- One keyword loop of `classifyEmails`: `true` when the loop reaches its `break`, that
is when some keyword of the slice occurs in `subject` or in `body`. -/
def foundKeyword (keywords : List GoString) (subject body : GoString) : Bool :=
  match keywords with
  | [] => false
  | keyword :: rest =>
    if stringsContains subject keyword || stringsContains body keyword then true
    else foundKeyword rest subject body

/-- Body of the loop of `classifyEmails`, on the triple
`(infoCount, approvalCount, responseCount)`. -/
def classifyOne (caseTable : Char → Char) (acc : Nat × Nat × Nat) (email : EmailInfo) :
    Nat × Nat × Nat :=
  let subject := stringsToLower caseTable email.Subject
  let body := bytesToLower caseTable email.Body
  let foundApproval := foundKeyword approvalKeywords subject body
  let approvalCount := if foundApproval then acc.2.1 + 1 else acc.2.1
  let foundResponse := !foundApproval && foundKeyword responseKeywords subject body
  let responseCount := if foundResponse then acc.2.2 + 1 else acc.2.2
  let infoCount := if !foundApproval && !foundResponse then acc.1 + 1 else acc.1
  (infoCount, approvalCount, responseCount)

/-- The function `classifyEmails`: `(infoCount, approvalCount, responseCount)`.  The
slice `infoKeywords` of the source is never read. -/
def classifyEmails (caseTable : Char → Char) (emails : List EmailInfo) : Nat × Nat × Nat :=
  emails.foldl (classifyOne caseTable) (0, 0, 0)

/-! ### Specification side of the classification -/

/-- Some keyword of `keywords` occurs in the lowercased subject or the lowercased
body of the record. -/
def hasKeyword (ct : Char → Char) (keywords : List GoString) (e : EmailInfo) : Bool :=
  keywords.any (fun k =>
    stringsContains (stringsToLower ct e.Subject) k || stringsContains (bytesToLower ct e.Body) k)

/-- A record with the given subject and body, other fields zero. -/
def mkMail (subject body : String) : EmailInfo :=
  { EmailInfo.zero with Subject := subject.toList, Body := utf8Bytes body.toList }

/-! ## Top senders and recipients -/

/-- Go `strings.Split(s, sep)` for a separator of one ASCII rune: the pieces of `s`
between the occurrences of `sep`; the empty string gives one empty piece. -/
def stringsSplit (sep : Char) : GoString → List GoString
  | [] => [[]]
  | c :: s =>
    if c = sep then [] :: stringsSplit sep s
    else
      match stringsSplit sep s with
      | [] => [[c]]
      | piece :: pieces => (c :: piece) :: pieces

/-- Go `unicode.IsSpace`: the Latin-1 spaces tested inline by the Go function, then the
runes of the range table `unicode.White_Space` above Latin-1. -/
def unicodeIsSpace (r : Char) : Bool :=
  let n := r.toNat
  if n ≤ 0xFF then
    n = 9 || n = 10 || n = 11 || n = 12 || n = 13 || n = 32 || n = 0x85 || n = 0xA0
  else
    n = 0x1680 || (decide (0x2000 ≤ n) && decide (n ≤ 0x200A)) || n = 0x2028 || n = 0x2029
      || n = 0x202F || n = 0x205F || n = 0x3000

/-- Go `strings.TrimSpace` on valid UTF-8: the leading and the trailing runes that are
`unicode.IsSpace` are removed. -/
def stringsTrimSpace (s : GoString) : GoString :=
  ((s.dropWhile unicodeIsSpace).reverse.dropWhile unicodeIsSpace).reverse

/-- The statement `counts[key]++` on a `map[string]int`: a missing key reads as 0. -/
def GoMap.incr (counts : GoMap GoString Nat) (key : GoString) : GoMap GoString Nat :=
  counts.set key ((counts.get? key).getD 0 + 1)

/-- Body of the first loop of `getTopSendersAndRecipients`. -/
def countSender (senderCounts : GoMap GoString Nat) (email : EmailInfo) : GoMap GoString Nat :=
  let sender := email.SenderEmail
  let sender := if sender = [] then email.SenderName else sender
  if sender ≠ [] then senderCounts.incr sender else senderCounts

/-- Body of the inner loop over `allRecipients`. -/
def countRecipient (recipientCounts : GoMap GoString Nat) (recipient : GoString) :
    GoMap GoString Nat :=
  let recipient := stringsTrimSpace recipient
  if recipient ≠ [] then recipientCounts.incr recipient else recipientCounts

/-- Body of the second loop of `getTopSendersAndRecipients`. -/
def countRecipients (recipientCounts : GoMap GoString Nat) (email : EmailInfo) :
    GoMap GoString Nat :=
  let recipients := stringsSplit ';' email.To
  let ccRecipients := stringsSplit ';' email.CC
  let allRecipients := recipients ++ ccRecipients
  allRecipients.foldl countRecipient recipientCounts

/-- The map `senderCounts` after the first loop. -/
def senderCounts (receivedEmails : List EmailInfo) : GoMap GoString Nat :=
  receivedEmails.foldl countSender []

/-- The map `recipientCounts` after the second loop. -/
def recipientCounts (sentEmails : List EmailInfo) : GoMap GoString Nat :=
  sentEmails.foldl countRecipients []

/-- The closure passed to `sort.Slice`: `top[i].Count > top[j].Count`. -/
def lessByCount (a b : SenderCount) : Bool := decide (a.Count > b.Count)

/-- The tail shared by both lists of `getTopSendersAndRecipients`: the entries of the
map in the order `visit` of the `range` loop, sorted by `sort.Slice` and cut to
the first five. -/
def topFive (visit : GoMap GoString Nat → List (GoString × Nat))
    (sortSlice : List SenderCount → (SenderCount → SenderCount → Bool) → List SenderCount)
    (counts : GoMap GoString Nat) : List SenderCount :=
  let top := (visit counts).map (fun entry => SenderCount.mk entry.1 entry.2)
  let top := sortSlice top lessByCount
  if top.length > 5 then top.take 5 else top

/-- The function `getTopSendersAndRecipients`: `(topSenders, topRecipients)`.

Go leaves two things open, and both are parameters.  `visitSenders` and
`visitRecipients` are the orders in which the two `range` loops visit their map
(any order, see `RangeVisits`); `sortSlice` is `sort.Slice`, of which the package
documents only that it sorts and that it is not stable (see `SortsSlice`). -/
def getTopSendersAndRecipients
    (visitSenders visitRecipients : GoMap GoString Nat → List (GoString × Nat))
    (sortSlice : List SenderCount → (SenderCount → SenderCount → Bool) → List SenderCount)
    (receivedEmails sentEmails : List EmailInfo) : List SenderCount × List SenderCount :=
  (topFive visitSenders sortSlice (senderCounts receivedEmails),
   topFive visitRecipients sortSlice (recipientCounts sentEmails))

/-- A `range` loop over a map visits every entry exactly once, in an order Go does not
specify. -/
def RangeVisits (visit : GoMap GoString Nat → List (GoString × Nat)) : Prop :=
  ∀ m, (visit m).Perm m

/-- The requirement of package `sort` on a `less` function: a strict weak ordering. -/
def StrictWeakOrder {α : Type} (less : α → α → Bool) : Prop :=
  (∀ a b, less a b = true → less b a = false)
    ∧ (∀ a b c, less a b = false → less b c = false → less a c = false)

/-- The contract of `sort.Slice`: the slice is rearranged, and for a strict weak
ordering `less` no element is less than an element before it. -/
def SortsSlice
    (sortSlice : List SenderCount → (SenderCount → SenderCount → Bool) → List SenderCount) :
    Prop :=
  ∀ l less, (sortSlice l less).Perm l
    ∧ (StrictWeakOrder less → (sortSlice l less).Pairwise (fun a b => less b a = false))

/-- Inner loop of `insertionSortLessFunc` of package `sort`: `x` moves towards the front
past every element it is less than.  The sorted part is held back to front. -/
def insertBackward {α : Type} (less : α → α → Bool) (x : α) : List α → List α
  | [] => [x]
  | y :: rest => if less x y then y :: insertBackward less x rest else x :: y :: rest

/-- The algorithm `sort.Slice` runs on a slice of at most 12 elements: insertion sort. -/
def insertionSortSlice (l : List SenderCount) (less : SenderCount → SenderCount → Bool) :
    List SenderCount :=
  (l.foldl (fun sortedRev x => insertBackward less x sortedRev) []).reverse

/-- A visiting order: the entries as the list holds them. -/
def visitInOrder (m : GoMap GoString Nat) : List (GoString × Nat) := m

/-- Another visiting order: the entries back to front. -/
def visitReversed (m : GoMap GoString Nat) : List (GoString × Nat) := m.reverse

/-! ### Specification side of the ranking -/

/-- The sender key of a received record: `SenderEmail`, or `SenderName` when
`SenderEmail` is empty. -/
def senderKey (e : EmailInfo) : GoString :=
  if e.SenderEmail ≠ [] then e.SenderEmail else e.SenderName

/-- The recipient segments of one field: split on ";", trimmed, empty ones dropped. -/
def fieldSegments (field : GoString) : List GoString :=
  ((stringsSplit ';' field).map stringsTrimSpace).filter (fun r => decide (r ≠ []))

/-- The recipient segments of all sent records: those of `To`, then those of `CC`. -/
def recipientSegments (sent : List EmailInfo) : List GoString :=
  sent.flatMap (fun e => fieldSegments e.To ++ fieldSegments e.CC)

/-- A received record from the given sender address and display name. -/
def mkFrom (address name : String) : EmailInfo :=
  { EmailInfo.zero with Subject := "s".toList, SenderEmail := address.toList,
                        SenderName := name.toList }

/-- A sent record with the given `To` and `CC` fields. -/
def mkTo (toField ccField : String) : EmailInfo :=
  { EmailInfo.zero with Subject := "s".toList, To := toField.toList, CC := ccField.toList }

/-- The list `top` is a top-5 selection of the frequency map `counts`: its entries are
entries of the map with pairwise different keys, it holds five entries or all of
them, and no key left out has a larger count than an entry kept. -/
def IsTopFive (counts : GoMap GoString Nat) (top : List SenderCount) : Prop :=
  (top.map SenderCount.Email).Nodup
    ∧ (∀ e ∈ top, counts.get? e.Email = some e.Count)
    ∧ (counts.map Prod.fst).Nodup
    ∧ top.length = min 5 (counts.map Prod.fst).length
    ∧ (∀ k c, counts.get? k = some c → k ∉ top.map SenderCount.Email →
        ∀ e ∈ top, c ≤ e.Count)

/-- Nine received records from six senders, one of them without address and name. -/
def sampleReceived : List EmailInfo :=
  [mkFrom "a" "", mkFrom "" "B", mkFrom "" "", mkFrom "a" "A", mkFrom "c" "", mkFrom "d" "",
    mkFrom "e" "", mkFrom "f" "", mkFrom "f" ""]

/-- Two sent records; the first names "a@x.com" in `To` and in `CC`. -/
def sampleSent : List EmailInfo := [mkTo "a@x.com; b" "a@x.com", mkTo "" ""]

/-! ## Read status -/

/-- The `float64` operations `analyzeReadStatus` uses.  IEEE-754 arithmetic is not
part of this development: the operations are parameters. -/
structure Float64Ops (F : Type) where
  /-- The zero value of a `float64` variable. -/
  zero : F
  /-- The conversion `float64(n)` of an `int`. -/
  ofInt : Nat → F
  /-- The quotient `x / y`. -/
  div : F → F → F
  /-- The product `x * y`. -/
  mul : F → F → F

/-- Body of the loop of `analyzeReadStatus`, on the pair `(readCount, unreadCount)`. -/
def tallyRead (acc : Nat × Nat) (email : EmailInfo) : Nat × Nat :=
  if email.IsRead then (acc.1 + 1, acc.2) else (acc.1, acc.2 + 1)

/-- The function `analyzeReadStatus`:
`(readCount, unreadCount, readPercentage, unreadPercentage)`. -/
def analyzeReadStatus {F : Type} (fl : Float64Ops F) (emails : List EmailInfo) :
    Nat × Nat × F × F :=
  let counts := emails.foldl tallyRead (0, 0)
  let readCount := counts.1
  let unreadCount := counts.2
  let total := readCount + unreadCount
  if total > 0 then
    (readCount, unreadCount,
      fl.mul (fl.div (fl.ofInt readCount) (fl.ofInt total)) (fl.ofInt 100),
      fl.mul (fl.div (fl.ofInt unreadCount) (fl.ofInt total)) (fl.ofInt 100))
  else (readCount, unreadCount, fl.zero, fl.zero)

/-- Exact rational arithmetic in the place of `float64`: the percentages without
rounding. -/
def exactOps : Float64Ops ℚ :=
  { zero := 0, ofInt := fun n => (n : ℚ), div := fun x y => x / y, mul := fun x y => x * y }

/-! ## The normalizer -/

/-- A mail item as the automation interface shows it to `extractEmailInfo`: every
property read (`oleutil.GetProperty`) either fails, which is `none`, or gives the
value that `ToString`, `ToDateTime` or `ToBool` returns. -/
structure MailItem where
  Subject : Option GoString
  SentOn : Option Time
  ReceivedTime : Option Time
  UnRead : Option Bool
  SenderEmailAddress : Option GoString
  SenderName : Option GoString
  To : Option GoString
  CC : Option GoString
  Body : Option GoString

/-- The end of `extractEmailInfo`, from the comment on the body text on: the bytes of
the body, cut to the first 500 when there are more (`len(bodyText) > 500`,
`bodyText[:500]`). -/
def extractBody (item : MailItem) (emailInfo : EmailInfo) : EmailInfo :=
  match item.Body with
  | some text =>
    let bodyText := utf8Bytes text
    let bodyText := if bodyText.length > 500 then bodyText.take 500 else bodyText
    { emailInfo with Body := bodyText }
  | none => emailInfo

/-- The part of `extractEmailInfo` that reads `To` and `CC` of a sent item. -/
def extractRecipients (item : MailItem) (emailInfo : EmailInfo) : EmailInfo :=
  let emailInfo :=
    match item.To with
    | some v => { emailInfo with To := v }
    | none => emailInfo
  match item.CC with
  | some v => { emailInfo with CC := v }
  | none => emailInfo

/-- The part of `extractEmailInfo` that reads the read flag and the sender of a received
item. -/
def extractSender (item : MailItem) (emailInfo : EmailInfo) : EmailInfo :=
  let emailInfo :=
    match item.UnRead with
    | some unread => { emailInfo with IsRead := !unread }
    | none => emailInfo
  let emailInfo :=
    match item.SenderEmailAddress with
    | some v => { emailInfo with SenderEmail := v }
    | none => emailInfo
  match item.SenderName with
  | some v => { emailInfo with SenderName := v }
  | none => emailInfo

/-- The function `extractEmailInfo`.  A time outside the range makes it return the
zero value `EmailInfo{}` at once. -/
def extractEmailInfo (item : MailItem) (isSent : Bool) (startDate endDate : Time) : EmailInfo :=
  let emailInfo : EmailInfo :=
    match item.Subject with
    | some v => { EmailInfo.zero with Subject := v }
    | none => EmailInfo.zero
  if isSent then
    match item.SentOn with
    | some sentOn =>
      let emailInfo := { emailInfo with SentTime := sentOn }
      if emailInfo.SentTime.Before startDate
          || emailInfo.SentTime.After endDate.AddDate001 then
        EmailInfo.zero
      else extractBody item (extractRecipients item emailInfo)
    | none => extractBody item (extractRecipients item emailInfo)
  else
    match item.ReceivedTime with
    | some receivedTime =>
      let emailInfo := { emailInfo with ReceivedTime := receivedTime }
      if emailInfo.ReceivedTime.Before startDate
          || emailInfo.ReceivedTime.After endDate.AddDate001 then
        EmailInfo.zero
      else extractBody item (extractSender item emailInfo)
    | none => extractBody item (extractSender item emailInfo)

/-- A received item with subject "Budget", stamped `h` hours after 2024-01-05 00:00,
unread, from "a@x.com"; the other properties are empty strings. -/
def receivedItem (h : Int) : MailItem :=
  { Subject := some "Budget".toList, SentOn := none, ReceivedTime := some (jan5 h),
    UnRead := some true, SenderEmailAddress := some "a@x.com".toList, SenderName := some [],
    To := some [], CC := some [], Body := some "hello".toList }

/-- A sent item with subject "Re: Budget", stamped `h` hours after 2024-01-05 00:00. -/
def sentItem (h : Int) : MailItem :=
  { Subject := some "Re: Budget".toList, SentOn := some (jan5 h), ReceivedTime := none,
    UnRead := none, SenderEmailAddress := none, SenderName := none,
    To := some "a@x.com".toList, CC := some [], Body := some "ok".toList }

/-! ### Body excerpts -/

/-- A received item stamped 2024-01-05 09:00 with the given body text. -/
def itemWithBody (text : GoString) : MailItem :=
  { Subject := some "Budget".toList, SentOn := none, ReceivedTime := some (jan5 9),
    UnRead := some false, SenderEmailAddress := some "a@x.com".toList, SenderName := some [],
    To := none, CC := none, Body := some text }

/-- A body of `n` copies of the rune U+4E2D, which takes three bytes in UTF-8. -/
def wideBody (n : Nat) : GoString := List.replicate n (Char.ofNat 0x4E2D)

/-- The excerpt as the specification words it, counted in characters: the first 500
runes of the text when it has more than 500 runes, the whole text otherwise, as
bytes. -/
def first500Runes (text : GoString) : List UInt8 :=
  utf8Bytes (if text.length > 500 then text.take 500 else text)

/-! ## Retrieval loops -/

/-- A collection of mail items as the automation interface shows it: the property
`Count` and the indexed property `Item`, whose index starts at 1.  Either read can
fail, which is `none`. -/
structure ItemCollection where
  Count : Option Nat
  Item : Nat → Option MailItem

/-- A mail folder: its `Name`, its `Items` collection, and the collection that the call
`Items.Restrict(filterStr)` returns for the filter the program builds (`none` when
the call fails).  Nothing is assumed about which items the restricted collection
holds. -/
structure MailFolder where
  Name : Option GoString
  Items : Option ItemCollection
  Restrict : Option ItemCollection

/-- The item loop shared by `getEmailsInDateRange` and `getSentEmailsInDateRange`:
for `i` from 1 to `totalCount`, an item that cannot be read is skipped, and the
record of the others is appended when its `Subject` is not empty. -/
def appendItems (targetItems : ItemCollection) (isSent : Bool) (startDate endDate : Time)
    (totalCount : Nat) (emails : List EmailInfo) : List EmailInfo :=
  (List.range totalCount).foldl (fun emails i =>
    match targetItems.Item (i + 1) with
    | none => emails
    | some item =>
      let emailInfo := extractEmailInfo item isSent startDate endDate
      if emailInfo.Subject ≠ [] then emails ++ [emailInfo] else emails) emails

/-- Body of the folder loop of `getEmailsInDateRange`. -/
def appendFolder (startDate endDate : Time) (emails : List EmailInfo) (folder : MailFolder) :
    List EmailInfo :=
  match folder.Name with
  | none => emails
  | some _ =>
    match folder.Items with
    | none => emails
    | some items =>
      let targetItems :=
        match folder.Restrict with
        | some filteredItems => filteredItems
        | none => items
      match targetItems.Count with
      | some totalCount => appendItems targetItems false startDate endDate totalCount emails
      | none => emails

/-- The function `getEmailsInDateRange`; its error result is always `nil`. -/
def getEmailsInDateRange (folders : List MailFolder) (startDate endDate : Time) :
    List EmailInfo :=
  folders.foldl (appendFolder startDate endDate) []

/-- The function `getSentEmailsInDateRange`, from the sent folder it has found:
`accountFolder` is the folder reached through the delivery store of the account
(`none` when a step on the way fails), `defaultFolder` the result of
`GetDefaultFolder(5)` on the namespace.  The result is the slice and whether the
error is not `nil`.  The second read of `Count`, whose error the source drops, is
taken as 0 when it fails. -/
def getSentEmailsInDateRange (accountFolder defaultFolder : Option MailFolder)
    (startDate endDate : Time) : List EmailInfo × Bool :=
  match accountFolder.orElse (fun _ => defaultFolder) with
  | none => ([], false)
  | some sentFolder =>
    match sentFolder.Items with
    | none => ([], true)
    | some items =>
      match items.Count with
      | some _ =>
        let targetItems :=
          match sentFolder.Restrict with
          | some filteredItems => filteredItems
          | none => items
        let processCount := targetItems.Count.getD 0
        (appendItems targetItems true startDate endDate processCount [], false)
      | none => ([], false)

/-- The received and sent sequences as `runAnalysis` hands them to the four
computations: an error of `getSentEmailsInDateRange` replaces the sent sequence by
the empty one. -/
def analysisInputs (folders : List MailFolder) (accountFolder defaultFolder : Option MailFolder)
    (startDate endDate : Time) : List EmailInfo × List EmailInfo :=
  let receivedEmails := getEmailsInDateRange folders startDate endDate
  let sent := getSentEmailsInDateRange accountFolder defaultFolder startDate endDate
  let sentEmails := if sent.2 then [] else sent.1
  (receivedEmails, sentEmails)

/-- A collection made of the listed items, all readable. -/
def collectionOf (items : List MailItem) : ItemCollection :=
  { Count := some items.length, Item := fun i => if i = 0 then none else items.get? (i - 1) }

/-- An inbox of four items: one inside the range, one stamped after it, one without
subject, one inside the range; the `Restrict` call fails. -/
def sampleInbox : MailFolder :=
  { Name := some "Inbox".toList,
    Items := some (collectionOf [receivedItem 9, receivedItem 48,
      { receivedItem 10 with Subject := some [] }, receivedItem 11]),
    Restrict := none }

/-- A sent folder of three items: one inside the range, one without subject, one stamped
before the range. -/
def sampleSentFolder : MailFolder :=
  { Name := some "Sent".toList,
    Items := some (collectionOf [sentItem 17, { sentItem 18 with Subject := none },
      sentItem (-5)]),
    Restrict := none }

/-! ### Runs of the ranking -/

/-- A visiting order of the Go runtime for a map held in one bucket: the loop starts at
the slot `offset` and wraps around. -/
def visitFrom (offset : Nat) (m : GoMap GoString Nat) : List (GoString × Nat) :=
  m.drop offset ++ m.take offset

/-- Six received records from six senders, one record each. -/
def tiedReceived : List EmailInfo :=
  [mkFrom "a" "", mkFrom "b" "", mkFrom "c" "", mkFrom "d" "", mkFrom "e" "", mkFrom "f" ""]

/-- Two sent records to two recipients, one record each. -/
def tiedSent : List EmailInfo := [mkTo "x@x.com" "", mkTo "y@y.com" ""]

/-! ### The binary64 operations -/

/-- The power `2 ^ e` for an integer exponent. -/
def pow2 (e : Int) : ℚ :=
  if 0 ≤ e then ((2 ^ e.toNat : ℕ) : ℚ) else 1 / ((2 ^ (-e).toNat : ℕ) : ℚ)

/-- The number of halvings that bring `n` below 2, at most `fuel` of them. -/
def bitsBelow : Nat → Nat → Nat
  | 0, _ => 0
  | fuel + 1, n => if n < 2 then 0 else bitsBelow fuel (n / 2) + 1

/-- The position of the leading bit of a positive `n`: the largest `b` with
`2 ^ b ≤ n`. -/
def floorLog2 (n : Nat) : Nat := bitsBelow n n

/-- The natural number nearest to a non-negative rational, a tie going to the even
one. -/
def roundHalfEven (m : ℚ) : ℕ :=
  let f := m.num.toNat / m.den
  let r := m - f
  if r < 1 / 2 then f else if 1 / 2 < r then f + 1 else if f % 2 = 0 then f else f + 1

/-- The binade of a positive rational `x`: the integer `E` with `2 ^ E ≤ x < 2 ^ (E + 1)`. -/
def binade (x : ℚ) : Int :=
  let k : Int := (floorLog2 x.num.toNat : Int) - (floorLog2 x.den : Int)
  if pow2 k ≤ x then k else k - 1

/-- Rounding of a rational to `float64` (IEEE 754 binary64) in the mode round to nearest,
ties to even: the significand `x / 2 ^ (E - 52)` of 53 bits is rounded to an
integer.  The exponent is not limited.  From `2 ^ -1022` up to `2 ^ 1023` in
absolute value, where all values of `analyzeReadStatus` on a slice lie (a slice
has fewer than `2 ^ 63` elements), this is the rounding of the machine. -/
def roundBinary64 (x : ℚ) : ℚ :=
  if x = 0 then 0
  else if 0 < x then (roundHalfEven (x / pow2 (binade x - 52)) : ℚ) * pow2 (binade x - 52)
  else - ((roundHalfEven (-x / pow2 (binade (-x) - 52)) : ℚ) * pow2 (binade (-x) - 52))

/-- The `float64` operations of Go on finite values: each result is the exact result
rounded to binary64.  A divisor 0 does not occur in `analyzeReadStatus`, which
divides only when `total > 0`. -/
def binary64Ops : Float64Ops ℚ :=
  { zero := 0
    ofInt := fun n => roundBinary64 (n : ℚ)
    div := fun x y => roundBinary64 (x / y)
    mul := fun x y => roundBinary64 (x * y) }

/-- The unit roundoff of binary64, `2 ^ -53`. -/
def unitRoundoff : ℚ := 1 / 9007199254740992

/-- A received record that is read (`isRead = true`) or unread. -/
def mkRead (isRead : Bool) : EmailInfo :=
  { EmailInfo.zero with Subject := "s".toList, IsRead := isRead }

/-! ### Ties in the ranking -/

/-- The count `c` belongs to exactly one key of the frequency map. -/
def CountUnique (counts : GoMap GoString Nat) (c : Nat) : Prop :=
  (counts.map Prod.snd).count c = 1

/-- Two top-5 lists of one frequency map agree up to ties: they show the same `Count` at
every position, the same entry at every position whose count belongs to one key
only, and they are equal when every count in the list belongs to one key only. -/
def AgreeUpToTies (counts : GoMap GoString Nat) (top top2 : List SenderCount) : Prop :=
  top.map SenderCount.Count = top2.map SenderCount.Count
    ∧ (∀ (i : Nat) (e : SenderCount), top[i]? = some e → CountUnique counts e.Count →
        top2[i]? = some e)
    ∧ ((∀ e ∈ top, CountUnique counts e.Count) → top = top2)

/-- Received records of seven senders with 7, 6, 5, 4, 3, 1 and 1 records. -/
def gradedReceived : List EmailInfo :=
  List.replicate 7 (mkFrom "a" "") ++ List.replicate 6 (mkFrom "b" "")
    ++ List.replicate 5 (mkFrom "c" "") ++ List.replicate 4 (mkFrom "d" "")
    ++ List.replicate 3 (mkFrom "e" "") ++ [mkFrom "f" "", mkFrom "g" ""]

/-! # Theorems -/

/-! ## Go maps -/

theorem GoMap.get?_set_same {κ ν : Type} [DecidableEq κ] (m : GoMap κ ν) (k : κ) (v : ν) :
    (m.set k v).get? k = some v := by
  induction m with
  | nil => simp [GoMap.set, GoMap.get?]
  | cons p rest ih =>
    obtain ⟨k1, v1⟩ := p
    by_cases h : k1 = k
    · simp [GoMap.set, GoMap.get?, h]
    · simp [GoMap.set, GoMap.get?, h, ih]

theorem GoMap.get?_set_other {κ ν : Type} [DecidableEq κ] (m : GoMap κ ν) (k k2 : κ) (v : ν)
    (h : k ≠ k2) : (m.set k v).get? k2 = m.get? k2 := by
  induction m with
  | nil => simp [GoMap.set, GoMap.get?, h]
  | cons p rest ih =>
    obtain ⟨k1, v1⟩ := p
    by_cases h1 : k1 = k
    · subst h1
      simp [GoMap.set, GoMap.get?, h]
    · simp [GoMap.set, GoMap.get?, h1, ih]

/-! ## Reply correlation: the map built from the sent records -/

theorem recordSent_get?_same (ct : Char → Char) (m : GoMap GoString (List Time)) (e : EmailInfo) :
    (recordSent ct m e).get? (cleanSubject ct e.Subject)
      = some ((m.get? (cleanSubject ct e.Subject)).getD [] ++ [sentDay e]) := by
  unfold recordSent cleanSubject sentDay
  cases hm : m.get? (rePrefixReplaceAllString (stringsToLower ct e.Subject)) with
  | some l => simp [hm, GoMap.get?_set_same]
  | none => simp [hm, GoMap.get?_set_same]

theorem recordSent_get?_other (ct : Char → Char) (m : GoMap GoString (List Time)) (e : EmailInfo)
    (k : GoString) (h : cleanSubject ct e.Subject ≠ k) :
    (recordSent ct m e).get? k = m.get? k := by
  unfold recordSent
  unfold cleanSubject at h
  cases hm : m.get? (rePrefixReplaceAllString (stringsToLower ct e.Subject)) with
  | some l => simp [hm, GoMap.get?_set_other _ _ _ _ h]
  | none => simp [hm, GoMap.get?_set_other _ _ _ _ h]

theorem foldl_recordSent_isSome (ct : Char → Char) (sent : List EmailInfo)
    (m : GoMap GoString (List Time)) (k : GoString) :
    ((sent.foldl (recordSent ct) m).get? k).isSome
      = ((m.get? k).isSome || sent.any (fun s => decide (cleanSubject ct s.Subject = k))) := by
  induction sent generalizing m with
  | nil => simp
  | cons e rest ih =>
    rw [List.foldl_cons, ih]
    by_cases h : cleanSubject ct e.Subject = k
    · subst h
      simp [recordSent_get?_same]
    · simp [recordSent_get?_other ct m e k h, h]

theorem foldl_recordSent_days (ct : Char → Char) (sent : List EmailInfo)
    (m : GoMap GoString (List Time)) (k : GoString) :
    ((sent.foldl (recordSent ct) m).get? k).getD []
      = (m.get? k).getD [] ++ daysOfKey ct k sent := by
  induction sent generalizing m with
  | nil => simp [daysOfKey]
  | cons e rest ih =>
    rw [List.foldl_cons, ih]
    by_cases h : cleanSubject ct e.Subject = k
    · subst h
      simp [recordSent_get?_same, daysOfKey]
    · simp [recordSent_get?_other ct m e k h, h, daysOfKey]

theorem anySameDay_eq (ds : List Time) (r : Time) :
    anySameDay ds r = ds.any (fun d => decide (d = r)) := by
  induction ds with
  | nil => simp [anySameDay]
  | cons d rest ih =>
    by_cases h : d = r
    · simp [anySameDay, Time.Equal, h]
    · simp [anySameDay, Time.Equal, h, ih]

theorem any_daysOfKey (ct : Char → Char) (k : GoString) (sent : List EmailInfo) (r : Time) :
    (daysOfKey ct k sent).any (fun d => decide (d = r))
      = sent.any (fun s => decide (cleanSubject ct s.Subject = k) && decide (sentDay s = r)) := by
  induction sent with
  | nil => simp [daysOfKey]
  | cons s rest ih =>
    unfold daysOfKey at ih ⊢
    by_cases h : cleanSubject ct s.Subject = k
    · simp only [List.filter_cons, h, decide_True, if_true, List.map_cons, List.any_cons,
        Bool.true_and, ih]
    · simp only [List.filter_cons, h, decide_False, Bool.false_eq_true, if_false, List.any_cons,
        Bool.false_and, Bool.false_or, ih]

theorem correlate_eq (ct : Char → Char) (sent : List EmailInfo) (acc : Nat × Nat)
    (e : EmailInfo) :
    correlate ct (buildSentSubjects ct sent) acc e
      = (acc.1 + (if isReplied ct sent e then 1 else 0),
         acc.2 + (if isSameDayReply ct sent e then 1 else 0)) := by
  have hsome := foldl_recordSent_isSome ct sent [] (cleanSubject ct e.Subject)
  have hdays := foldl_recordSent_days ct sent [] (cleanSubject ct e.Subject)
  simp only [GoMap.get?, Option.isSome_none, Bool.false_or, Option.getD_none,
    List.nil_append] at hsome hdays
  unfold correlate isReplied isSameDayReply
  cases hr : e.IsRead with
  | false => simp
  | true =>
    simp only [Bool.not_true, Bool.false_eq_true, if_false, Bool.true_and]
    change (match (buildSentSubjects ct sent).get? (cleanSubject ct e.Subject) with
      | some sentDates =>
        if anySameDay sentDates (receivedDay e) then (acc.1 + 1, acc.2 + 1) else (acc.1 + 1, acc.2)
      | none => acc) = _
    unfold buildSentSubjects
    cases hg : (sent.foldl (recordSent ct) []).get? (cleanSubject ct e.Subject) with
    | none =>
      rw [hg] at hsome
      simp only [Option.isSome_none] at hsome
      have hno : ∀ s ∈ sent, ¬ cleanSubject ct s.Subject = cleanSubject ct e.Subject := by
        intro s hs hk
        have : sent.any (fun s => decide (cleanSubject ct s.Subject = cleanSubject ct e.Subject))
            = true := List.any_eq_true.mpr ⟨s, hs, by simp [hk]⟩
        rw [this] at hsome
        exact Bool.noConfusion hsome
      have h1 : sent.any (fun s => decide (cleanSubject ct s.Subject = cleanSubject ct e.Subject))
          = false := hsome.symm
      have h2 : sent.any (fun s =>
          decide (cleanSubject ct s.Subject = cleanSubject ct e.Subject) &&
            decide (sentDay s = receivedDay e)) = false := by
        rw [List.any_eq_false]
        intro s hs
        simp [hno s hs]
      simp [h1, h2]
    | some ds =>
      rw [hg] at hsome hdays
      simp only [Option.isSome_some, Option.getD_some] at hsome hdays
      have h2 : anySameDay ds (receivedDay e) = sent.any (fun s =>
          decide (cleanSubject ct s.Subject = cleanSubject ct e.Subject) &&
            decide (sentDay s = receivedDay e)) := by
        rw [anySameDay_eq, hdays, any_daysOfKey]
      simp only [h2, ← hsome, if_true]
      split <;> simp

theorem foldl_correlate (ct : Char → Char) (sent received : List EmailInfo) (acc : Nat × Nat) :
    received.foldl (correlate ct (buildSentSubjects ct sent)) acc
      = (acc.1 + (received.filter (isReplied ct sent)).length,
         acc.2 + (received.filter (isSameDayReply ct sent)).length) := by
  induction received generalizing acc with
  | nil => simp
  | cons e rest ih =>
    rw [List.foldl_cons, ih, correlate_eq]
    by_cases h1 : isReplied ct sent e <;> by_cases h2 : isSameDayReply ct sent e <;>
      simp [List.filter_cons, h1, h2] <;> omega

theorem findRepliedEmails_eq (ct : Char → Char) (received sent : List EmailInfo)
    (h : sent ≠ []) :
    findRepliedEmails ct received sent
      = ((received.filter (isReplied ct sent)).length,
         (received.filter (isSameDayReply ct sent)).length) := by
  unfold findRepliedEmails
  have hlen : ¬ sent.length = 0 := by
    intro h0
    exact h (List.length_eq_zero.mp h0)
  simp only [hlen, if_false]
  rw [foldl_correlate]
  simp

theorem isSameDayReply_imp (ct : Char → Char) (sent : List EmailInfo) (e : EmailInfo)
    (h : isSameDayReply ct sent e = true) : isReplied ct sent e = true := by
  unfold isSameDayReply at h
  unfold isReplied
  rw [Bool.and_eq_true] at h ⊢
  refine ⟨h.1, ?_⟩
  obtain ⟨s, hs, hk⟩ := List.any_eq_true.mp h.2
  rw [Bool.and_eq_true] at hk
  exact List.any_eq_true.mpr ⟨s, hs, hk.1⟩

/-! ## Reply correlation: the subject key -/

theorem stripFirstMatch_append (p : GoString) (hp : p ∈ replyPrefixes) (x : GoString) :
    stripFirstMatch replyPrefixes (p ++ x) = some x := by
  have h1 : "re:".toList = ['r', 'e', ':'] := rfl
  have h2 : "回复:".toList = ['回', '复', ':'] := rfl
  have h3 : "回覆:".toList = ['回', '覆', ':'] := rfl
  unfold replyPrefixes at hp ⊢
  rw [h1, h2, h3] at hp ⊢
  simp only [List.mem_cons, List.mem_singleton, List.not_mem_nil, or_false] at hp
  rcases hp with rfl | rfl | rfl
  · simp [stripFirstMatch, List.isPrefixOf]
  · simp [stripFirstMatch, List.isPrefixOf]
  · simp [stripFirstMatch, List.isPrefixOf]

theorem stripFirstMatch_none (ps : List GoString) (s : GoString)
    (h : ∀ p ∈ ps, ¬ p <+: s) : stripFirstMatch ps s = none := by
  induction ps with
  | nil => rfl
  | cons p rest ih =>
    have hp : ¬ p.isPrefixOf s = true := by
      rw [List.isPrefixOf_iff_prefix]
      exact h p (List.mem_cons_self _ _)
    unfold stripFirstMatch
    rw [if_neg hp]
    exact ih (fun q hq => h q (List.mem_cons_of_mem _ hq))

theorem dropWhile_spaces_append (ws rest : GoString)
    (hws : ∀ c ∈ ws, isRegexpSpace c = true)
    (hrest : ∀ c ∈ rest.head?, isRegexpSpace c = false) :
    (ws ++ rest).dropWhile isRegexpSpace = rest := by
  induction ws with
  | nil =>
    cases rest with
    | nil => rfl
    | cons c t =>
      have hc : isRegexpSpace c = false := hrest c (by simp)
      simp [List.dropWhile_cons, hc]
  | cons w t ih =>
    have hw : isRegexpSpace w = true := hws w (List.mem_cons_self _ _)
    rw [List.cons_append, List.dropWhile_cons, if_pos hw]
    exact ih (fun c hc => hws c (List.mem_cons_of_mem _ hc))

/-- The key of a subject: when the lowercased subject is a reply prefix, a run of `\s`
runes and a remainder that starts with no `\s` rune, the key is the remainder;
when no reply prefix starts the lowercased subject, the key is the lowercased
subject. -/
theorem cleanSubject_key (ct : Char → Char) (subject : GoString) :
    (∀ p ∈ replyPrefixes, ∀ ws rest : GoString,
        (∀ c ∈ ws, isRegexpSpace c = true) → (∀ c ∈ rest.head?, isRegexpSpace c = false) →
        stringsToLower ct subject = p ++ (ws ++ rest) → cleanSubject ct subject = rest)
      ∧ ((∀ p ∈ replyPrefixes, ¬ p <+: stringsToLower ct subject) →
          cleanSubject ct subject = stringsToLower ct subject) := by
  refine ⟨?_, ?_⟩
  · intro p hp ws rest hws hrest heq
    unfold cleanSubject rePrefixReplaceAllString
    rw [heq, stripFirstMatch_append p hp]
    exact dropWhile_spaces_append ws rest hws hrest
  · intro h
    unfold cleanSubject rePrefixReplaceAllString
    rw [stripFirstMatch_none _ _ h]

/-- C1: with a non-empty sent sequence, `repliedCount` is the number of received records
that are read and whose subject key is the key of at least one sent record.
Records that are not read are never counted: removing them from the input leaves
the count unchanged.  The key `cleanSubject` of a subject is its lowercased form
with one leading reply prefix and the run of `\s` runes after it removed, and the
lowercased form itself when no reply prefix leads it. -/
theorem findRepliedEmails_repliedCount (ct : Char → Char) (received sent : List EmailInfo)
    (h : sent ≠ []) :
    (findRepliedEmails ct received sent).1
        = (received.filter (fun e => e.IsRead && sent.any (fun s =>
            decide (cleanSubject ct s.Subject = cleanSubject ct e.Subject)))).length
      ∧ (findRepliedEmails ct (received.filter (fun e => e.IsRead)) sent).1
        = (findRepliedEmails ct received sent).1
      ∧ (∀ subject : GoString, ∀ p ∈ replyPrefixes, ∀ ws rest : GoString,
          (∀ c ∈ ws, isRegexpSpace c = true) → (∀ c ∈ rest.head?, isRegexpSpace c = false) →
          stringsToLower ct subject = p ++ (ws ++ rest) → cleanSubject ct subject = rest)
      ∧ (∀ subject : GoString, (∀ p ∈ replyPrefixes, ¬ p <+: stringsToLower ct subject) →
          cleanSubject ct subject = stringsToLower ct subject) := by
  rw [findRepliedEmails_eq ct received sent h, findRepliedEmails_eq ct _ sent h]
  refine ⟨rfl, ?_, fun subject => (cleanSubject_key ct subject).1,
    fun subject => (cleanSubject_key ct subject).2⟩
  simp only [List.filter_filter]
  congr 1
  apply List.filter_congr
  intro e _
  unfold isReplied
  cases e.IsRead <;> simp

/-- Witness of C1: sent "Re: Budget" and a read received "Budget" give `repliedCount = 1`;
the same received record left unread gives 0; only one reply prefix is removed
from "RE: re: Budget". -/
theorem findRepliedEmails_repliedCount_witness :
    budgetSent ≠ []
      ∧ (findRepliedEmails id (budgetReceived 9) budgetSent).1
          = ((budgetReceived 9).filter (fun e => e.IsRead && budgetSent.any (fun s =>
              decide (cleanSubject id s.Subject = cleanSubject id e.Subject)))).length
      ∧ (findRepliedEmails id (budgetReceived 9) budgetSent).1 = 1
      ∧ (findRepliedEmails id [mkEmail "Budget" false (jan5 9) 0] budgetSent).1 = 0
      ∧ cleanSubject id "Re: Budget".toList = "budget".toList
      ∧ cleanSubject id "RE: re: Budget".toList = "re: budget".toList :=
  ⟨by decide,
    (findRepliedEmails_repliedCount id (budgetReceived 9) budgetSent (by decide)).1,
    by decide, by decide, by decide, by decide⟩

/-- C2: with a non-empty sent sequence, `sameDayReplies` is the number of received records
that are read and for which some sent record has the same subject key and the
same truncated day; a record is counted once however many sent records match, and
every record counted here is also counted in `repliedCount`. -/
theorem findRepliedEmails_sameDayReplies (ct : Char → Char) (received sent : List EmailInfo)
    (h : sent ≠ []) :
    (findRepliedEmails ct received sent).2
        = (received.filter (fun e => e.IsRead && sent.any (fun s =>
            decide (cleanSubject ct s.Subject = cleanSubject ct e.Subject) &&
              decide (s.SentTime.Truncate day = e.ReceivedTime.Truncate day)))).length
      ∧ (findRepliedEmails ct received sent).2 ≤ (findRepliedEmails ct received sent).1
      ∧ (findRepliedEmails ct received sent).2 ≤ received.length := by
  rw [findRepliedEmails_eq ct received sent h]
  refine ⟨rfl, ?_, List.length_filter_le _ _⟩
  show (received.filter (isSameDayReply ct sent)).length
    ≤ (received.filter (isReplied ct sent)).length
  rw [← List.countP_eq_length_filter, ← List.countP_eq_length_filter]
  exact List.countP_mono_left (fun e _ he => isSameDayReply_imp ct sent e he)

/-- Witness of C2: sent "Re: Budget" on 2024-01-05 and a read received "Budget" give
`(1, 1)` when received on 2024-01-05 and `(1, 0)` when received on 2024-01-06;
two sent records on the same day still count the received record once. -/
theorem findRepliedEmails_sameDayReplies_witness :
    budgetSent ≠ []
      ∧ ((findRepliedEmails id (budgetReceived 9) budgetSent).2
            = ((budgetReceived 9).filter (fun e => e.IsRead && budgetSent.any (fun s =>
                decide (cleanSubject id s.Subject = cleanSubject id e.Subject) &&
                  decide (s.SentTime.Truncate day = e.ReceivedTime.Truncate day)))).length
          ∧ (findRepliedEmails id (budgetReceived 9) budgetSent).2
              ≤ (findRepliedEmails id (budgetReceived 9) budgetSent).1
          ∧ (findRepliedEmails id (budgetReceived 9) budgetSent).2 ≤ (budgetReceived 9).length)
      ∧ findRepliedEmails id (budgetReceived 9) budgetSent = (1, 1)
      ∧ findRepliedEmails id (budgetReceived 33) budgetSent = (1, 0)
      ∧ findRepliedEmails id (budgetReceived 9) (budgetSent ++ budgetSent) = (1, 1) :=
  ⟨by decide, findRepliedEmails_sameDayReplies id (budgetReceived 9) budgetSent (by decide),
    by decide, by decide, by decide⟩

/-! ## Keyword classification -/

theorem foundKeyword_eq_any (keywords : List GoString) (subject body : GoString) :
    foundKeyword keywords subject body
      = keywords.any (fun k => stringsContains subject k || stringsContains body k) := by
  induction keywords with
  | nil => rfl
  | cons k rest ih =>
    cases h : (stringsContains subject k || stringsContains body k) with
    | true => simp [foundKeyword, List.any_cons, h]
    | false => simp [foundKeyword, List.any_cons, h, ih]

theorem classifyOne_eq (ct : Char → Char) (acc : Nat × Nat × Nat) (e : EmailInfo) :
    classifyOne ct acc e
      = (acc.1 + (if !hasKeyword ct approvalKeywords e && !hasKeyword ct responseKeywords e
            then 1 else 0),
         acc.2.1 + (if hasKeyword ct approvalKeywords e then 1 else 0),
         acc.2.2 + (if !hasKeyword ct approvalKeywords e && hasKeyword ct responseKeywords e
            then 1 else 0)) := by
  unfold classifyOne hasKeyword
  simp only [foundKeyword_eq_any]
  cases approvalKeywords.any (fun k =>
      stringsContains (stringsToLower ct e.Subject) k
        || stringsContains (bytesToLower ct e.Body) k) <;>
    cases responseKeywords.any (fun k =>
      stringsContains (stringsToLower ct e.Subject) k
        || stringsContains (bytesToLower ct e.Body) k) <;>
    simp

theorem foldl_classifyOne (ct : Char → Char) (emails : List EmailInfo) (acc : Nat × Nat × Nat) :
    emails.foldl (classifyOne ct) acc
      = (acc.1 + (emails.filter (fun e =>
            !hasKeyword ct approvalKeywords e && !hasKeyword ct responseKeywords e)).length,
         acc.2.1 + (emails.filter (fun e => hasKeyword ct approvalKeywords e)).length,
         acc.2.2 + (emails.filter (fun e =>
            !hasKeyword ct approvalKeywords e && hasKeyword ct responseKeywords e)).length) := by
  induction emails generalizing acc with
  | nil => simp
  | cons e rest ih =>
    rw [List.foldl_cons, ih, classifyOne_eq]
    cases ha : hasKeyword ct approvalKeywords e <;>
      cases hr : hasKeyword ct responseKeywords e <;>
      simp [List.filter_cons, ha, hr] <;> omega

/-- C3: `classifyEmails` returns `(infoCount, approvalCount, responseCount)` where
`approvalCount` counts the records whose lowercased subject or body contains an
approval keyword, `responseCount` those with no approval keyword but a response
keyword, and `infoCount` those with neither.  On records that contain both an
approval and a response keyword, only `approvalCount` grows. -/
theorem classifyEmails_counts (ct : Char → Char) (emails : List EmailInfo) :
    classifyEmails ct emails
        = ((emails.filter (fun e =>
              !hasKeyword ct approvalKeywords e && !hasKeyword ct responseKeywords e)).length,
           (emails.filter (fun e => hasKeyword ct approvalKeywords e)).length,
           (emails.filter (fun e =>
              !hasKeyword ct approvalKeywords e && hasKeyword ct responseKeywords e)).length)
      ∧ classifyEmails ct (emails.filter (fun e =>
            hasKeyword ct approvalKeywords e && hasKeyword ct responseKeywords e))
        = (0, (emails.filter (fun e =>
            hasKeyword ct approvalKeywords e && hasKeyword ct responseKeywords e)).length, 0) := by
  unfold classifyEmails
  rw [foldl_classifyOne, foldl_classifyOne]
  simp only [Nat.zero_add, List.filter_filter, true_and, Prod.mk.injEq]
  refine ⟨?_, ?_, ?_⟩
  · rw [List.length_eq_zero, List.filter_eq_nil_iff]
    intro e _
    cases hasKeyword ct approvalKeywords e <;> cases hasKeyword ct responseKeywords e <;> simp
  · congr 1
    apply List.filter_congr
    intro e _
    cases hasKeyword ct approvalKeywords e <;> cases hasKeyword ct responseKeywords e <;> simp
  · rw [List.length_eq_zero, List.filter_eq_nil_iff]
    intro e _
    cases hasKeyword ct approvalKeywords e <;> cases hasKeyword ct responseKeywords e <;> simp

/-- C4: the three counts returned by `classifyEmails` add up to the number of records. -/
theorem classifyEmails_sum (ct : Char → Char) (emails : List EmailInfo) :
    (classifyEmails ct emails).1 + (classifyEmails ct emails).2.1
      + (classifyEmails ct emails).2.2 = emails.length := by
  unfold classifyEmails
  generalize hacc : ((0, 0, 0) : Nat × Nat × Nat) = acc
  have h0 : acc.1 + acc.2.1 + acc.2.2 = 0 := by subst hacc; rfl
  suffices h : ∀ (l : List EmailInfo) (a : Nat × Nat × Nat),
      (l.foldl (classifyOne ct) a).1 + (l.foldl (classifyOne ct) a).2.1
        + (l.foldl (classifyOne ct) a).2.2 = a.1 + a.2.1 + a.2.2 + l.length by
    rw [h emails acc, h0, Nat.zero_add]
  intro l
  induction l with
  | nil => intro a; simp
  | cons e rest ih =>
    intro a
    rw [List.foldl_cons, ih, classifyOne_eq]
    cases hasKeyword ct approvalKeywords e <;> cases hasKeyword ct responseKeywords e <;>
      simp [List.length_cons] <;> omega

/-- A record with both an approval keyword ("approve") and a response keyword ("reply")
is counted as approval only; the other three records fall in one bucket each. -/
theorem classifyEmails_example :
    classifyEmails id [mkMail "Please APPROVE and reply" ""] = (0, 1, 0)
      ∧ classifyEmails id [mkMail "Please APPROVE and reply" "", mkMail "x" "请回复",
          mkMail "hello" "world", mkMail "Reply" "批准"] = (1, 2, 1) := by
  decide

/-! ## Top senders and recipients: counting -/

theorem GoMap.keys_set {κ ν : Type} [DecidableEq κ] (m : GoMap κ ν) (k : κ) (v : ν) :
    (m.set k v).map Prod.fst
      = if k ∈ m.map Prod.fst then m.map Prod.fst else m.map Prod.fst ++ [k] := by
  induction m with
  | nil => simp [GoMap.set]
  | cons p rest ih =>
    obtain ⟨k1, v1⟩ := p
    by_cases h : k1 = k
    · subst h
      simp [GoMap.set]
    · have h2 : ¬ k = k1 := fun hk => h hk.symm
      by_cases hin : k ∈ rest.map Prod.fst
      · rw [if_pos hin] at ih
        have hin2 : k ∈ ((k1, v1) :: rest).map Prod.fst := by
          rw [List.map_cons]
          exact List.mem_cons_of_mem _ hin
        rw [if_pos hin2]
        simp [GoMap.set, h, ih]
      · rw [if_neg hin] at ih
        have hin2 : ¬ k ∈ ((k1, v1) :: rest).map Prod.fst := by
          rw [List.map_cons, List.mem_cons]
          rintro (hk | hk)
          · exact h2 hk
          · exact hin hk
        rw [if_neg hin2]
        simp [GoMap.set, h, ih]

theorem GoMap.nodup_set {κ ν : Type} [DecidableEq κ] (m : GoMap κ ν) (k : κ) (v : ν)
    (h : (m.map Prod.fst).Nodup) : ((m.set k v).map Prod.fst).Nodup := by
  rw [GoMap.keys_set]
  by_cases hin : k ∈ m.map Prod.fst
  · rw [if_pos hin]
    exact h
  · rw [if_neg hin]
    rw [List.nodup_append]
    refine ⟨h, List.nodup_singleton k, ?_⟩
    intro a ha hb
    rw [List.mem_singleton] at hb
    subst hb
    exact hin ha

theorem GoMap.mem_of_get? {κ ν : Type} [DecidableEq κ] (m : GoMap κ ν) (k : κ) (v : ν)
    (h : m.get? k = some v) : (k, v) ∈ m := by
  induction m with
  | nil => simp [GoMap.get?] at h
  | cons p rest ih =>
    obtain ⟨k1, v1⟩ := p
    by_cases h1 : k1 = k
    · subst h1
      simp only [GoMap.get?, if_true, Option.some.injEq] at h
      subst h
      exact List.mem_cons_self _ _
    · simp only [GoMap.get?, h1, if_false] at h
      exact List.mem_cons_of_mem _ (ih h)

theorem GoMap.get?_of_mem {κ ν : Type} [DecidableEq κ] (m : GoMap κ ν) (k : κ) (v : ν)
    (hnd : (m.map Prod.fst).Nodup) (h : (k, v) ∈ m) : m.get? k = some v := by
  induction m with
  | nil => simp at h
  | cons p rest ih =>
    obtain ⟨k1, v1⟩ := p
    rw [List.map_cons, List.nodup_cons] at hnd
    rw [List.mem_cons] at h
    rcases h with h | h
    · simp only [Prod.mk.injEq] at h
      obtain ⟨hk, hv⟩ := h
      subst hk hv
      simp [GoMap.get?]
    · have hne : ¬ k1 = k := by
        intro hk
        subst hk
        exact hnd.1 (List.mem_map.mpr ⟨(k1, v), h, rfl⟩)
      simp only [GoMap.get?, hne, if_false]
      exact ih hnd.2 h

theorem GoMap.get?_incr (m : GoMap GoString Nat) (k k2 : GoString) :
    (m.incr k).get? k2 = if k = k2 then some ((m.get? k).getD 0 + 1) else m.get? k2 := by
  unfold GoMap.incr
  by_cases h : k = k2
  · subst h
    rw [if_pos rfl, GoMap.get?_set_same]
  · rw [if_neg h, GoMap.get?_set_other _ _ _ _ h]

theorem foldl_incr_get? (ks : List GoString) (m : GoMap GoString Nat) (k : GoString) :
    (ks.foldl GoMap.incr m).get? k
      = if ks.count k = 0 then m.get? k else some ((m.get? k).getD 0 + ks.count k) := by
  induction ks generalizing m with
  | nil => simp
  | cons a rest ih =>
    rw [List.foldl_cons, ih, GoMap.get?_incr, List.count_cons]
    by_cases ha : a = k
    · subst ha
      simp only [if_true, beq_self_eq_true, Option.getD_some]
      by_cases hc : List.count a rest = 0
      · simp [hc]
      · simp only [hc, if_false, Nat.add_eq_zero, and_false, Nat.succ_ne_zero]
        congr 1
        omega
    · have hb : (a == k) = false := by simpa using ha
      simp [ha, hb]

theorem foldl_incr_nodup (ks : List GoString) (m : GoMap GoString Nat)
    (h : (m.map Prod.fst).Nodup) : ((ks.foldl GoMap.incr m).map Prod.fst).Nodup := by
  induction ks generalizing m with
  | nil => exact h
  | cons a rest ih =>
    rw [List.foldl_cons]
    exact ih _ (GoMap.nodup_set _ _ _ h)

theorem foldl_incr_keys (ks : List GoString) (m : GoMap GoString Nat) (k : GoString)
    (h : k ∈ (ks.foldl GoMap.incr m).map Prod.fst) : k ∈ m.map Prod.fst ∨ k ∈ ks := by
  induction ks generalizing m with
  | nil => exact Or.inl h
  | cons a rest ih =>
    rw [List.foldl_cons] at h
    rcases ih _ h with h1 | h1
    · unfold GoMap.incr at h1
      rw [GoMap.keys_set] at h1
      by_cases hin : a ∈ m.map Prod.fst
      · rw [if_pos hin] at h1
        exact Or.inl h1
      · rw [if_neg hin, List.mem_append, List.mem_singleton] at h1
        rcases h1 with h1 | h1
        · exact Or.inl h1
        · exact Or.inr (h1 ▸ List.mem_cons_self _ _)
    · exact Or.inr (List.mem_cons_of_mem _ h1)

/-- The keys counted for the senders: the non-empty sender keys of the received
records, in order. -/
theorem senderCounts_eq (received : List EmailInfo) :
    senderCounts received
      = ((received.map senderKey).filter (fun k => decide (k ≠ []))).foldl GoMap.incr [] := by
  unfold senderCounts
  generalize ([] : GoMap GoString Nat) = m
  revert m
  induction received with
  | nil => intro m; rfl
  | cons e rest ih =>
    intro m
    rw [List.foldl_cons, ih, List.map_cons, List.filter_cons]
    have hk : countSender m e = if senderKey e ≠ [] then GoMap.incr m (senderKey e) else m := by
      unfold countSender senderKey
      by_cases h1 : e.SenderEmail = []
      · simp [h1]
      · simp [h1]
    rw [hk]
    by_cases h : senderKey e = []
    · simp [h]
    · simp [h]

theorem foldl_countRecipient (pieces : List GoString) (m : GoMap GoString Nat) :
    pieces.foldl countRecipient m
      = ((pieces.map stringsTrimSpace).filter (fun r => decide (r ≠ []))).foldl GoMap.incr m := by
  induction pieces generalizing m with
  | nil => rfl
  | cons p rest ih =>
    rw [List.foldl_cons, ih, List.map_cons, List.filter_cons]
    unfold countRecipient
    by_cases h : stringsTrimSpace p = []
    · simp [h]
    · simp [h]

/-- The keys counted for the recipients: the recipient segments of the sent records,
in order. -/
theorem recipientCounts_eq (sent : List EmailInfo) :
    recipientCounts sent = (recipientSegments sent).foldl GoMap.incr [] := by
  unfold recipientCounts recipientSegments
  generalize ([] : GoMap GoString Nat) = m
  induction sent generalizing m with
  | nil => rfl
  | cons e rest ih =>
    rw [List.foldl_cons, ih, List.flatMap_cons, List.foldl_append]
    congr 1
    unfold countRecipients fieldSegments
    simp only []
    rw [foldl_countRecipient, List.map_append, List.filter_append]

theorem senderCounts_nodup (received : List EmailInfo) :
    ((senderCounts received).map Prod.fst).Nodup := by
  rw [senderCounts_eq]
  exact foldl_incr_nodup _ _ List.nodup_nil

theorem recipientCounts_nodup (sent : List EmailInfo) :
    ((recipientCounts sent).map Prod.fst).Nodup := by
  rw [recipientCounts_eq]
  exact foldl_incr_nodup _ _ List.nodup_nil

/-! ## Top senders and recipients: sorting and cutting -/

theorem strictWeakOrder_lessByCount : StrictWeakOrder lessByCount := by
  refine ⟨?_, ?_⟩
  · intro a b h
    simp only [lessByCount, decide_eq_true_eq, decide_eq_false_iff_not] at h ⊢
    omega
  · intro a b c h1 h2
    simp only [lessByCount, decide_eq_false_iff_not] at h1 h2 ⊢
    omega

theorem insertBackward_perm {α : Type} (less : α → α → Bool) (x : α) (l : List α) :
    (insertBackward less x l).Perm (x :: l) := by
  induction l with
  | nil => exact List.Perm.refl _
  | cons y rest ih =>
    unfold insertBackward
    by_cases h : less x y = true
    · rw [if_pos h]
      exact (List.Perm.cons y ih).trans (List.Perm.swap x y rest)
    · rw [if_neg h]

theorem insertBackward_pairwise {α : Type} (less : α → α → Bool) (hw : StrictWeakOrder less)
    (x : α) (l : List α) (h : l.Pairwise (fun a b => less a b = false)) :
    (insertBackward less x l).Pairwise (fun a b => less a b = false) := by
  induction l with
  | nil => exact List.pairwise_singleton _ _
  | cons y rest ih =>
    rw [List.pairwise_cons] at h
    unfold insertBackward
    by_cases hxy : less x y = true
    · rw [if_pos hxy, List.pairwise_cons]
      refine ⟨?_, ih h.2⟩
      intro z hz
      rcases (List.mem_cons.mp ((insertBackward_perm less x rest).subset hz)) with hz | hz
      · subst hz
        exact hw.1 _ _ hxy
      · exact h.1 z hz
    · rw [if_neg hxy]
      have hxy2 : less x y = false := by simpa using hxy
      rw [List.pairwise_cons]
      refine ⟨?_, List.pairwise_cons.mpr h⟩
      intro z hz
      rcases List.mem_cons.mp hz with hz | hz
      · subst hz
        exact hxy2
      · exact hw.2 x y z hxy2 (h.1 z hz)

theorem foldl_insertBackward_perm {α : Type} (less : α → α → Bool) (l acc : List α) :
    (l.foldl (fun sortedRev x => insertBackward less x sortedRev) acc).Perm (l ++ acc) := by
  induction l generalizing acc with
  | nil => exact List.Perm.refl _
  | cons x rest ih =>
    rw [List.foldl_cons]
    refine (ih _).trans ?_
    refine (List.Perm.append_left rest (insertBackward_perm less x acc)).trans ?_
    rw [List.cons_append]
    exact List.perm_middle

theorem foldl_insertBackward_pairwise {α : Type} (less : α → α → Bool)
    (hw : StrictWeakOrder less) (l acc : List α)
    (h : acc.Pairwise (fun a b => less a b = false)) :
    (l.foldl (fun sortedRev x => insertBackward less x sortedRev) acc).Pairwise
      (fun a b => less a b = false) := by
  induction l generalizing acc with
  | nil => exact h
  | cons x rest ih =>
    rw [List.foldl_cons]
    exact ih _ (insertBackward_pairwise less hw x acc h)

/-- Insertion sort meets the contract of `sort.Slice`. -/
theorem sortsSlice_insertionSortSlice : SortsSlice insertionSortSlice := by
  intro l less
  unfold insertionSortSlice
  refine ⟨?_, ?_⟩
  · refine (List.reverse_perm _).trans ?_
    have h := foldl_insertBackward_perm less l []
    rwa [List.append_nil] at h
  · intro hw
    rw [List.pairwise_reverse]
    exact foldl_insertBackward_pairwise less hw l [] List.Pairwise.nil

theorem rangeVisits_visitInOrder : RangeVisits visitInOrder :=
  fun m => List.Perm.refl m

theorem rangeVisits_visitReversed : RangeVisits visitReversed :=
  fun m => List.reverse_perm m

theorem topFive_eq_take (visit : GoMap GoString Nat → List (GoString × Nat))
    (sortSlice : List SenderCount → (SenderCount → SenderCount → Bool) → List SenderCount)
    (m : GoMap GoString Nat) :
    topFive visit sortSlice m
      = (sortSlice ((visit m).map (fun entry => SenderCount.mk entry.1 entry.2))
          lessByCount).take 5 := by
  unfold topFive
  simp only []
  split
  · rfl
  · rename_i h
    rw [List.take_of_length_le (by omega)]

theorem topFive_length_le (visit : GoMap GoString Nat → List (GoString × Nat))
    (sortSlice : List SenderCount → (SenderCount → SenderCount → Bool) → List SenderCount)
    (m : GoMap GoString Nat) : (topFive visit sortSlice m).length ≤ 5 := by
  rw [topFive_eq_take, List.length_take]
  exact Nat.min_le_left _ _

theorem topFive_pairwise (visit : GoMap GoString Nat → List (GoString × Nat))
    (sortSlice : List SenderCount → (SenderCount → SenderCount → Bool) → List SenderCount)
    (hs : SortsSlice sortSlice) (m : GoMap GoString Nat) :
    (topFive visit sortSlice m).Pairwise (fun a b => b.Count ≤ a.Count) := by
  rw [topFive_eq_take]
  have h := (hs ((visit m).map (fun entry => SenderCount.mk entry.1 entry.2)) lessByCount).2
    strictWeakOrder_lessByCount
  refine List.Pairwise.sublist (List.take_sublist 5 _) (h.imp ?_)
  intro a b hab
  simp only [lessByCount, decide_eq_false_iff_not] at hab
  omega

theorem mem_sorted_iff (visit : GoMap GoString Nat → List (GoString × Nat))
    (sortSlice : List SenderCount → (SenderCount → SenderCount → Bool) → List SenderCount)
    (hv : RangeVisits visit) (hs : SortsSlice sortSlice) (m : GoMap GoString Nat)
    (e : SenderCount) :
    e ∈ sortSlice ((visit m).map (fun entry => SenderCount.mk entry.1 entry.2)) lessByCount
      ↔ (e.Email, e.Count) ∈ m := by
  rw [(hs _ lessByCount).1.mem_iff, List.mem_map]
  constructor
  · rintro ⟨p, hp, rfl⟩
    exact (hv m).mem_iff.mp hp
  · intro h
    exact ⟨(e.Email, e.Count), (hv m).mem_iff.mpr h, rfl⟩

theorem topFive_mem (visit : GoMap GoString Nat → List (GoString × Nat))
    (sortSlice : List SenderCount → (SenderCount → SenderCount → Bool) → List SenderCount)
    (hv : RangeVisits visit) (hs : SortsSlice sortSlice) (m : GoMap GoString Nat)
    (hnd : (m.map Prod.fst).Nodup) (e : SenderCount) (he : e ∈ topFive visit sortSlice m) :
    m.get? e.Email = some e.Count := by
  rw [topFive_eq_take] at he
  exact GoMap.get?_of_mem m _ _ hnd
    ((mem_sorted_iff visit sortSlice hv hs m e).mp (List.mem_of_mem_take he))

theorem topFive_nodup (visit : GoMap GoString Nat → List (GoString × Nat))
    (sortSlice : List SenderCount → (SenderCount → SenderCount → Bool) → List SenderCount)
    (hv : RangeVisits visit) (hs : SortsSlice sortSlice) (m : GoMap GoString Nat)
    (hnd : (m.map Prod.fst).Nodup) :
    ((topFive visit sortSlice m).map SenderCount.Email).Nodup := by
  rw [topFive_eq_take]
  have hp : ((sortSlice ((visit m).map (fun entry => SenderCount.mk entry.1 entry.2))
      lessByCount).map SenderCount.Email).Perm (m.map Prod.fst) := by
    refine ((hs _ lessByCount).1.map SenderCount.Email).trans ?_
    rw [List.map_map]
    exact (hv m).map Prod.fst
  have hnd2 := hp.nodup_iff.mpr hnd
  exact List.Nodup.sublist (List.Sublist.map _ (List.take_sublist 5 _)) hnd2

theorem topFive_length (visit : GoMap GoString Nat → List (GoString × Nat))
    (sortSlice : List SenderCount → (SenderCount → SenderCount → Bool) → List SenderCount)
    (hv : RangeVisits visit) (hs : SortsSlice sortSlice) (m : GoMap GoString Nat) :
    (topFive visit sortSlice m).length = min 5 m.length := by
  rw [topFive_eq_take, List.length_take, (hs _ lessByCount).1.length_eq, List.length_map,
    (hv m).length_eq]

theorem topFive_left_out (visit : GoMap GoString Nat → List (GoString × Nat))
    (sortSlice : List SenderCount → (SenderCount → SenderCount → Bool) → List SenderCount)
    (hv : RangeVisits visit) (hs : SortsSlice sortSlice) (m : GoMap GoString Nat)
    (k : GoString) (c : Nat) (hk : m.get? k = some c)
    (hout : k ∉ (topFive visit sortSlice m).map SenderCount.Email)
    (e : SenderCount) (he : e ∈ topFive visit sortSlice m) : c ≤ e.Count := by
  rw [topFive_eq_take] at hout he
  have hsorted := (hs ((visit m).map (fun entry => SenderCount.mk entry.1 entry.2))
    lessByCount).2 strictWeakOrder_lessByCount
  have hmem : SenderCount.mk k c
      ∈ sortSlice ((visit m).map (fun entry => SenderCount.mk entry.1 entry.2)) lessByCount :=
    (mem_sorted_iff visit sortSlice hv hs m ⟨k, c⟩).mpr (GoMap.mem_of_get? m k c hk)
  rw [← List.take_append_drop 5 (sortSlice _ lessByCount)] at hsorted hmem
  rw [List.pairwise_append] at hsorted
  rcases List.mem_append.mp hmem with h1 | h1
  · exact absurd (List.mem_map.mpr ⟨_, h1, rfl⟩) hout
  · have := hsorted.2.2 e he ⟨k, c⟩ h1
    simp only [lessByCount, decide_eq_false_iff_not] at this
    omega

/-! ## Top senders and recipients: the claims -/

theorem count_senderKey (received : List EmailInfo) (k : GoString) (hk : k ≠ []) :
    ((received.map senderKey).filter (fun k => decide (k ≠ []))).count k
      = (received.filter (fun r => decide (senderKey r = k))).length := by
  rw [List.count_filter (by simpa using hk)]
  induction received with
  | nil => rfl
  | cons e rest ih =>
    rw [List.map_cons, List.count_cons, ih, List.filter_cons]
    by_cases h1 : senderKey e = k
    · have hb : (senderKey e == k) = true := by simpa using h1
      simp [h1]
    · have hb : (senderKey e == k) = false := by simpa using h1
      simp [h1]

theorem senderCounts_filter (received : List EmailInfo) :
    senderCounts (received.filter (fun r => !(decide (r.SenderEmail = [])
        && decide (r.SenderName = []))))
      = senderCounts received := by
  unfold senderCounts
  generalize ([] : GoMap GoString Nat) = m
  revert m
  induction received with
  | nil => intro m; rfl
  | cons e rest ih =>
    intro m
    rw [List.filter_cons]
    by_cases h1 : e.SenderEmail = []
    · by_cases h2 : e.SenderName = []
      · simp only [h1, h2, decide_True, Bool.and_self, Bool.not_true, Bool.false_eq_true,
          if_false, List.foldl_cons]
        rw [ih]
        congr 1
        simp [countSender, h1, h2]
      · simp only [h1, h2, decide_True, decide_False, Bool.and_false, Bool.not_false, if_true,
          List.foldl_cons]
        rw [ih]
    · simp only [h1, decide_False, Bool.false_and, Bool.not_false, if_true, List.foldl_cons]
      rw [ih]

/-- The frequency map of the recipients: an address is a key exactly when it occurs
among the recipient segments, and its value is the number of occurrences. -/
theorem recipientCounts_get? (sent : List EmailInfo) (k : GoString) :
    (recipientCounts sent).get? k
      = if (recipientSegments sent).count k = 0 then none
        else some ((recipientSegments sent).count k) := by
  rw [recipientCounts_eq, foldl_incr_get?]
  simp [GoMap.get?]

/-- The frequency map of the senders: a non-empty string is a key exactly when it is the
sender key of some received record, and its value is the number of such records;
the empty string is no key. -/
theorem senderCounts_get? (received : List EmailInfo) (k : GoString) :
    (senderCounts received).get? k
      = if k = [] ∨ (received.filter (fun r => decide (senderKey r = k))).length = 0 then none
        else some (received.filter (fun r => decide (senderKey r = k))).length := by
  rw [senderCounts_eq, foldl_incr_get?]
  by_cases hk : k = []
  · subst hk
    have h0 : ((received.map senderKey).filter (fun k => decide (k ≠ []))).count [] = 0 := by
      rw [List.count_eq_zero]
      intro hmem
      have := (List.mem_filter.mp hmem).2
      simp at this
    rw [if_pos h0, if_pos (Or.inl rfl)]
    rfl
  · rw [count_senderKey received k hk]
    simp [hk, GoMap.get?]

/-- C5: both lists returned by `getTopSendersAndRecipients` have at most five entries,
and in each the `Count` of an entry is at most the `Count` of every entry before
it. -/
theorem getTopSendersAndRecipients_sorted
    (visitSenders visitRecipients : GoMap GoString Nat → List (GoString × Nat))
    (sortSlice : List SenderCount → (SenderCount → SenderCount → Bool) → List SenderCount)
    (hs : SortsSlice sortSlice) (received sent : List EmailInfo) :
    (getTopSendersAndRecipients visitSenders visitRecipients sortSlice received sent).1.length ≤ 5
      ∧ (getTopSendersAndRecipients visitSenders visitRecipients sortSlice received sent).2.length
          ≤ 5
      ∧ (getTopSendersAndRecipients visitSenders visitRecipients sortSlice received sent).1.Pairwise
          (fun a b => b.Count ≤ a.Count)
      ∧ (getTopSendersAndRecipients visitSenders visitRecipients sortSlice received sent).2.Pairwise
          (fun a b => b.Count ≤ a.Count) :=
  ⟨topFive_length_le _ _ _, topFive_length_le _ _ _, topFive_pairwise _ _ hs _,
    topFive_pairwise _ _ hs _⟩

/-- Witness of C5 on the sample records, with insertion sort as `sort.Slice`. -/
theorem getTopSendersAndRecipients_sorted_witness :
    SortsSlice insertionSortSlice
      ∧ ((getTopSendersAndRecipients visitInOrder visitReversed insertionSortSlice
            sampleReceived sampleSent).1.length ≤ 5
        ∧ (getTopSendersAndRecipients visitInOrder visitReversed insertionSortSlice
            sampleReceived sampleSent).2.length ≤ 5
        ∧ (getTopSendersAndRecipients visitInOrder visitReversed insertionSortSlice
            sampleReceived sampleSent).1.Pairwise (fun a b => b.Count ≤ a.Count)
        ∧ (getTopSendersAndRecipients visitInOrder visitReversed insertionSortSlice
            sampleReceived sampleSent).2.Pairwise (fun a b => b.Count ≤ a.Count))
      ∧ getTopSendersAndRecipients visitInOrder visitReversed insertionSortSlice
            sampleReceived sampleSent
          = ([⟨"a".toList, 2⟩, ⟨"f".toList, 2⟩, ⟨"B".toList, 1⟩, ⟨"c".toList, 1⟩,
              ⟨"d".toList, 1⟩],
             [⟨"a@x.com".toList, 2⟩, ⟨"b".toList, 1⟩]) :=
  ⟨sortsSlice_insertionSortSlice,
    getTopSendersAndRecipients_sorted visitInOrder visitReversed insertionSortSlice
      sortsSlice_insertionSortSlice sampleReceived sampleSent,
    by decide⟩

/-- C6: each list returned by `getTopSendersAndRecipients` is a top-5 selection of its
frequency map: entries of the map with pairwise different keys, `min 5 n` of them
for a map of `n` keys, and no key left out counts more than an entry kept. -/
theorem getTopSendersAndRecipients_selection
    (visitSenders visitRecipients : GoMap GoString Nat → List (GoString × Nat))
    (sortSlice : List SenderCount → (SenderCount → SenderCount → Bool) → List SenderCount)
    (hS : RangeVisits visitSenders) (hR : RangeVisits visitRecipients)
    (hs : SortsSlice sortSlice) (received sent : List EmailInfo) :
    IsTopFive (senderCounts received)
        (getTopSendersAndRecipients visitSenders visitRecipients sortSlice received sent).1
      ∧ IsTopFive (recipientCounts sent)
        (getTopSendersAndRecipients visitSenders visitRecipients sortSlice received sent).2 := by
  unfold getTopSendersAndRecipients IsTopFive
  refine ⟨⟨?_, ?_, ?_, ?_, ?_⟩, ⟨?_, ?_, ?_, ?_, ?_⟩⟩
  · exact topFive_nodup _ _ hS hs _ (senderCounts_nodup received)
  · exact fun e he => topFive_mem _ _ hS hs _ (senderCounts_nodup received) e he
  · exact senderCounts_nodup received
  · rw [List.length_map]
    exact topFive_length _ _ hS hs _
  · exact fun k c hk hout e he => topFive_left_out _ _ hS hs _ k c hk hout e he
  · exact topFive_nodup _ _ hR hs _ (recipientCounts_nodup sent)
  · exact fun e he => topFive_mem _ _ hR hs _ (recipientCounts_nodup sent) e he
  · exact recipientCounts_nodup sent
  · rw [List.length_map]
    exact topFive_length _ _ hR hs _
  · exact fun k c hk hout e he => topFive_left_out _ _ hR hs _ k c hk hout e he

/-- Witness of C6 on the sample records: six sender keys, of which five are kept. -/
theorem getTopSendersAndRecipients_selection_witness :
    RangeVisits visitInOrder ∧ RangeVisits visitReversed ∧ SortsSlice insertionSortSlice
      ∧ (IsTopFive (senderCounts sampleReceived)
            (getTopSendersAndRecipients visitInOrder visitReversed insertionSortSlice
              sampleReceived sampleSent).1
          ∧ IsTopFive (recipientCounts sampleSent)
            (getTopSendersAndRecipients visitInOrder visitReversed insertionSortSlice
              sampleReceived sampleSent).2)
      ∧ (senderCounts sampleReceived).length = 6
      ∧ (getTopSendersAndRecipients visitInOrder visitReversed insertionSortSlice
            sampleReceived sampleSent).1.length = 5 :=
  ⟨rangeVisits_visitInOrder, rangeVisits_visitReversed, sortsSlice_insertionSortSlice,
    getTopSendersAndRecipients_selection visitInOrder visitReversed insertionSortSlice
      rangeVisits_visitInOrder rangeVisits_visitReversed sortsSlice_insertionSortSlice
      sampleReceived sampleSent,
    by decide, by decide⟩

/-- C7: the `Count` of every entry of the recipients list is the number of segments equal
to its address among the segments of the `To` and `CC` fields of all sent records
(split on ";", trimmed, empty ones dropped); an address in both fields of one
record counts twice. -/
theorem getTopSendersAndRecipients_recipientCount
    (visitSenders visitRecipients : GoMap GoString Nat → List (GoString × Nat))
    (sortSlice : List SenderCount → (SenderCount → SenderCount → Bool) → List SenderCount)
    (hR : RangeVisits visitRecipients) (hs : SortsSlice sortSlice)
    (received sent : List EmailInfo) :
    (∀ e ∈ (getTopSendersAndRecipients visitSenders visitRecipients sortSlice received sent).2,
        e.Count = (recipientSegments sent).count e.Email)
      ∧ (getTopSendersAndRecipients visitSenders visitRecipients sortSlice received
          [mkTo "a@x.com" "a@x.com"]).2 = [⟨"a@x.com".toList, 2⟩] := by
  refine ⟨?_, ?_⟩
  · intro e he
    have h := topFive_mem _ _ hR hs _ (recipientCounts_nodup sent) e he
    rw [recipientCounts_eq, foldl_incr_get?] at h
    by_cases hc : (recipientSegments sent).count e.Email = 0
    · rw [if_pos hc] at h
      simp [GoMap.get?] at h
    · rw [if_neg hc] at h
      simp only [GoMap.get?, Option.getD_none, Nat.zero_add, Option.some.injEq] at h
      exact h.symm
  · have hm : recipientCounts [mkTo "a@x.com" "a@x.com"] = [("a@x.com".toList, 2)] := by decide
    unfold getTopSendersAndRecipients
    simp only []
    rw [topFive_eq_take, hm]
    have hv := List.perm_singleton.mp (hR [("a@x.com".toList, 2)])
    rw [hv]
    have hsort := List.perm_singleton.mp
      ((hs [SenderCount.mk "a@x.com".toList 2] lessByCount).1)
    simp only [List.map_cons, List.map_nil]
    rw [hsort]
    rfl

/-- Witness of C7: on the sample records "a@x.com" stands in `To` and in `CC` of one
record and is counted twice. -/
theorem getTopSendersAndRecipients_recipientCount_witness :
    RangeVisits visitReversed ∧ SortsSlice insertionSortSlice
      ∧ ((∀ e ∈ (getTopSendersAndRecipients visitInOrder visitReversed insertionSortSlice
              sampleReceived sampleSent).2,
            e.Count = (recipientSegments sampleSent).count e.Email)
          ∧ (getTopSendersAndRecipients visitInOrder visitReversed insertionSortSlice
              sampleReceived [mkTo "a@x.com" "a@x.com"]).2 = [⟨"a@x.com".toList, 2⟩])
      ∧ recipientSegments sampleSent = ["a@x.com".toList, "b".toList, "a@x.com".toList] :=
  ⟨rangeVisits_visitReversed, sortsSlice_insertionSortSlice,
    getTopSendersAndRecipients_recipientCount visitInOrder visitReversed insertionSortSlice
      rangeVisits_visitReversed sortsSlice_insertionSortSlice sampleReceived sampleSent,
    by decide⟩

/-- C8: every entry of the senders list has a non-empty key, and its `Count` is the
number of received records whose sender key (`SenderEmail`, or `SenderName` when
`SenderEmail` is empty) equals it; records with both fields empty change
nothing. -/
theorem getTopSendersAndRecipients_senderCount
    (visitSenders visitRecipients : GoMap GoString Nat → List (GoString × Nat))
    (sortSlice : List SenderCount → (SenderCount → SenderCount → Bool) → List SenderCount)
    (hS : RangeVisits visitSenders) (hs : SortsSlice sortSlice)
    (received sent : List EmailInfo) :
    (∀ e ∈ (getTopSendersAndRecipients visitSenders visitRecipients sortSlice received sent).1,
        e.Email ≠ []
          ∧ e.Count = (received.filter (fun r => decide (senderKey r = e.Email))).length)
      ∧ (getTopSendersAndRecipients visitSenders visitRecipients sortSlice
          (received.filter (fun r => !(decide (r.SenderEmail = [])
            && decide (r.SenderName = [])))) sent).1
        = (getTopSendersAndRecipients visitSenders visitRecipients sortSlice received sent).1 := by
  refine ⟨?_, ?_⟩
  · intro e he
    have h := topFive_mem _ _ hS hs _ (senderCounts_nodup received) e he
    rw [senderCounts_eq, foldl_incr_get?] at h
    by_cases hc : ((received.map senderKey).filter (fun k => decide (k ≠ []))).count e.Email = 0
    · rw [if_pos hc] at h
      simp [GoMap.get?] at h
    · rw [if_neg hc] at h
      simp only [GoMap.get?, Option.getD_none, Nat.zero_add, Option.some.injEq] at h
      have hmem := List.count_pos_iff.mp (Nat.pos_of_ne_zero hc)
      have hne : e.Email ≠ [] := by
        have := (List.mem_filter.mp hmem).2
        simpa using this
      exact ⟨hne, by rw [← h, count_senderKey received e.Email hne]⟩
  · unfold getTopSendersAndRecipients
    simp only []
    rw [senderCounts_filter]

/-- Witness of C8 on the sample records: the record without address and name is in no
entry, the record with only a name is counted under the name. -/
theorem getTopSendersAndRecipients_senderCount_witness :
    RangeVisits visitInOrder ∧ SortsSlice insertionSortSlice
      ∧ ((∀ e ∈ (getTopSendersAndRecipients visitInOrder visitReversed insertionSortSlice
              sampleReceived sampleSent).1,
            e.Email ≠ []
              ∧ e.Count
                = (sampleReceived.filter (fun r => decide (senderKey r = e.Email))).length)
          ∧ (getTopSendersAndRecipients visitInOrder visitReversed insertionSortSlice
              (sampleReceived.filter (fun r => !(decide (r.SenderEmail = [])
                && decide (r.SenderName = [])))) sampleSent).1
            = (getTopSendersAndRecipients visitInOrder visitReversed insertionSortSlice
                sampleReceived sampleSent).1)
      ∧ (getTopSendersAndRecipients visitInOrder visitReversed insertionSortSlice
            sampleReceived sampleSent).1
          = [⟨"a".toList, 2⟩, ⟨"f".toList, 2⟩, ⟨"B".toList, 1⟩, ⟨"c".toList, 1⟩,
              ⟨"d".toList, 1⟩] :=
  ⟨rangeVisits_visitInOrder, sortsSlice_insertionSortSlice,
    getTopSendersAndRecipients_senderCount visitInOrder visitReversed insertionSortSlice
      rangeVisits_visitInOrder sortsSlice_insertionSortSlice sampleReceived sampleSent,
    by decide⟩

/-! ## Read status -/

theorem foldl_tallyRead (emails : List EmailInfo) (acc : Nat × Nat) :
    emails.foldl tallyRead acc
      = (acc.1 + (emails.filter (fun e => e.IsRead)).length,
         acc.2 + (emails.filter (fun e => !e.IsRead)).length) := by
  induction emails generalizing acc with
  | nil => simp
  | cons e rest ih =>
    rw [List.foldl_cons, ih]
    unfold tallyRead
    cases h : e.IsRead <;> simp [List.filter_cons, h] <;> omega

theorem length_read_add_unread (emails : List EmailInfo) :
    (emails.filter (fun e => e.IsRead)).length
      + (emails.filter (fun e => !e.IsRead)).length = emails.length := by
  induction emails with
  | nil => rfl
  | cons e rest ih =>
    cases h : e.IsRead <;> simp [List.filter_cons, h] <;> omega

/-- The integer results of `analyzeReadStatus`: the numbers of read and of unread
records, which add up to the number of records; on the empty sequence the
percentages keep their zero value and no quotient is formed. -/
theorem analyzeReadStatus_counts {F : Type} (fl : Float64Ops F) (emails : List EmailInfo) :
    (analyzeReadStatus fl emails).1 = (emails.filter (fun e => e.IsRead)).length
      ∧ (analyzeReadStatus fl emails).2.1 = (emails.filter (fun e => !e.IsRead)).length
      ∧ (analyzeReadStatus fl emails).1 + (analyzeReadStatus fl emails).2.1 = emails.length
      ∧ analyzeReadStatus fl [] = (0, 0, fl.zero, fl.zero) := by
  have hlen := length_read_add_unread emails
  unfold analyzeReadStatus
  simp only [foldl_tallyRead, Nat.zero_add]
  refine ⟨?_, ?_, ?_, ?_⟩
  · split <;> rfl
  · split <;> rfl
  · split <;> exact hlen
  · simp

/-- With exact rational arithmetic in the place of `float64`, the two percentages of a
non-empty sequence add up to 100.  This is a statement about the idealised
quotients, not about the rounded `float64` values the program prints. -/
theorem analyzeReadStatus_exact_sum (emails : List EmailInfo) (h : emails ≠ []) :
    (analyzeReadStatus exactOps emails).2.2.1 + (analyzeReadStatus exactOps emails).2.2.2
      = 100 := by
  have hpos : 0 < emails.length := List.length_pos.mpr h
  have htot := length_read_add_unread emails
  unfold analyzeReadStatus
  simp only [foldl_tallyRead, Nat.zero_add]
  rw [if_pos (by omega)]
  simp only [exactOps]
  have hne : ((emails.filter (fun e => e.IsRead)).length
      + (emails.filter (fun e => !e.IsRead)).length : ℚ) ≠ 0 := by
    have : (((emails.filter (fun e => e.IsRead)).length
      + (emails.filter (fun e => !e.IsRead)).length : ℕ) : ℚ) ≠ 0 := by
      rw [htot]
      exact_mod_cast hpos.ne'
    simpa using this
  push_cast
  field_simp
  ring

/-! ## The normalizer -/

theorem extractBody_fields (item : MailItem) (e : EmailInfo) :
    (extractBody item e).Subject = e.Subject
      ∧ (extractBody item e).ReceivedTime = e.ReceivedTime
      ∧ (extractBody item e).SentTime = e.SentTime := by
  unfold extractBody
  cases item.Body <;> exact ⟨rfl, rfl, rfl⟩

theorem extractSender_fields (item : MailItem) (e : EmailInfo) :
    (extractSender item e).Subject = e.Subject
      ∧ (extractSender item e).ReceivedTime = e.ReceivedTime := by
  unfold extractSender
  cases item.UnRead <;> cases item.SenderEmailAddress <;> cases item.SenderName <;>
    exact ⟨rfl, rfl⟩

theorem extractRecipients_fields (item : MailItem) (e : EmailInfo) :
    (extractRecipients item e).Subject = e.Subject
      ∧ (extractRecipients item e).SentTime = e.SentTime := by
  unfold extractRecipients
  cases item.To <;> cases item.CC <;> exact ⟨rfl, rfl⟩

/-- What `extractEmailInfo` does with a received item whose time `t` was read: outside
the closed range from `startDate` to `endDate + 1 day` it returns `EmailInfo{}`;
inside, end points included, it returns a record that carries `t` and the subject
of the item. -/
theorem extractEmailInfo_received_range (item : MailItem) (t startDate endDate : Time)
    (ht : item.ReceivedTime = some t) :
    ((t < startDate ∨ endDate + day < t) →
        extractEmailInfo item false startDate endDate = EmailInfo.zero)
      ∧ ((startDate ≤ t ∧ t ≤ endDate + day) →
          (extractEmailInfo item false startDate endDate).ReceivedTime = t
            ∧ (extractEmailInfo item false startDate endDate).Subject
                = item.Subject.getD []) := by
  unfold extractEmailInfo
  simp only [ht, Bool.false_eq_true, if_false, Time.Before, Time.After, Time.AddDate001]
  refine ⟨?_, ?_⟩
  · intro h
    have : (decide (t < startDate) || decide (endDate + day < t)) = true := by
      simpa using h
    rw [if_pos this]
  · intro h
    have : ¬ (decide (t < startDate) || decide (endDate + day < t)) = true := by
      simp only [Bool.or_eq_true, decide_eq_true_eq, not_or, not_lt]
      exact h
    rw [if_neg this]
    rw [(extractBody_fields _ _).1, (extractBody_fields _ _).2.1,
      (extractSender_fields _ _).1, (extractSender_fields _ _).2]
    cases item.Subject <;> exact ⟨rfl, rfl⟩

/-- The same for a sent item whose time `t` was read. -/
theorem extractEmailInfo_sent_range (item : MailItem) (t startDate endDate : Time)
    (ht : item.SentOn = some t) :
    ((t < startDate ∨ endDate + day < t) →
        extractEmailInfo item true startDate endDate = EmailInfo.zero)
      ∧ ((startDate ≤ t ∧ t ≤ endDate + day) →
          (extractEmailInfo item true startDate endDate).SentTime = t
            ∧ (extractEmailInfo item true startDate endDate).Subject
                = item.Subject.getD []) := by
  unfold extractEmailInfo
  simp only [ht, if_true, Time.Before, Time.After, Time.AddDate001]
  refine ⟨?_, ?_⟩
  · intro h
    have : (decide (t < startDate) || decide (endDate + day < t)) = true := by
      simpa using h
    rw [if_pos this]
  · intro h
    have : ¬ (decide (t < startDate) || decide (endDate + day < t)) = true := by
      simp only [Bool.or_eq_true, decide_eq_true_eq, not_or, not_lt]
      exact h
    rw [if_neg this]
    rw [(extractBody_fields _ _).1, (extractBody_fields _ _).2.2,
      (extractRecipients_fields _ _).1, (extractRecipients_fields _ _).2]
    cases item.Subject <;> exact ⟨rfl, rfl⟩

/-- C10: for the range 2024-01-05 to 2024-01-05 the half-open window ends at
2024-01-06 00:00:00, so an item stamped exactly then lies outside it.
`extractEmailInfo` returns a populated record for such an item, received or sent,
and not the zero value `EmailInfo{}`; an item stamped one nanosecond later is
rejected. -/
theorem extractEmailInfo_accepts_range_end :
    ¬ (jan5 24 < (jan5 0).AddDate001)
      ∧ extractEmailInfo (receivedItem 24) false (jan5 0) (jan5 0)
          = { Subject := "Budget".toList, SenderEmail := "a@x.com".toList, SenderName := [],
              ReceivedTime := jan5 24, SentTime := 0, IsRead := false,
              Body := utf8Bytes "hello".toList, To := [], CC := [] }
      ∧ extractEmailInfo (receivedItem 24) false (jan5 0) (jan5 0) ≠ EmailInfo.zero
      ∧ extractEmailInfo (sentItem 24) true (jan5 0) (jan5 0) ≠ EmailInfo.zero
      ∧ extractEmailInfo { receivedItem 24 with ReceivedTime := some (jan5 24 + 1) } false
          (jan5 0) (jan5 0) = EmailInfo.zero := by
  decide

/-! ## Body excerpts -/

theorem extractBody_body (item : MailItem) (e : EmailInfo) (text : GoString)
    (h : item.Body = some text) : (extractBody item e).Body = (utf8Bytes text).take 500 := by
  unfold extractBody
  rw [h]
  simp only []
  split
  · rfl
  · rename_i hlen
    rw [List.take_of_length_le (by omega)]

theorem utf8Bytes_ascii (text : GoString) (h : ∀ c ∈ text, c.toNat < 0x80) :
    utf8Bytes text = text.map (fun c => UInt8.ofNat c.toNat) := by
  induction text with
  | nil => rfl
  | cons c rest ih =>
    have hc : c.toNat < 0x80 := h c (List.mem_cons_self _ _)
    unfold utf8Bytes at ih ⊢
    rw [List.flatMap_cons, ih (fun d hd => h d (List.mem_cons_of_mem _ hd)), List.map_cons]
    simp [encodeRune, hc]

/-- On a body of ASCII runes bytes and runes coincide: the Body stored is the first 500
runes of the text, or the whole text when it has at most 500 runes. -/
theorem extractBody_ascii (item : MailItem) (e : EmailInfo) (text : GoString)
    (h : item.Body = some text) (hascii : ∀ c ∈ text, c.toNat < 0x80) :
    (extractBody item e).Body = first500Runes text := by
  rw [extractBody_body item e text h, utf8Bytes_ascii text hascii]
  unfold first500Runes
  split
  · rw [utf8Bytes_ascii _ (fun c hc => hascii c (List.mem_of_mem_take hc)), List.map_take]
  · rename_i hlen
    rw [utf8Bytes_ascii text hascii, List.take_of_length_le (by rw [List.length_map]; omega)]

set_option maxRecDepth 100000 in
/-- C11: a body of 300 runes of three bytes each has fewer than 500 runes, so an excerpt
of 500 characters is the whole body.  `extractEmailInfo` stores the first 500 of
its 900 bytes instead: 166 complete runes and the first two bytes of the next
one, which a reader of the string decodes as two `RuneError` runes. -/
theorem extractEmailInfo_body_cut_in_bytes :
    (wideBody 300).length = 300
      ∧ first500Runes (wideBody 300) = utf8Bytes (wideBody 300)
      ∧ (extractEmailInfo (itemWithBody (wideBody 300)) false (jan5 0) (jan5 0)).Body
          ≠ first500Runes (wideBody 300)
      ∧ (extractEmailInfo (itemWithBody (wideBody 300)) false (jan5 0) (jan5 0)).Body
          = (utf8Bytes (wideBody 300)).take 500
      ∧ (extractEmailInfo (itemWithBody (wideBody 300)) false (jan5 0) (jan5 0)).Body.length
          = 500
      ∧ decodeRunes
            (extractEmailInfo (itemWithBody (wideBody 300)) false (jan5 0) (jan5 0)).Body
          = wideBody 166 ++ [RuneError, RuneError] := by
  decide

/-! ## Retrieval loops -/

/-- The records the item loop looks at: those of the readable items among the first
`totalCount`, in order. -/
theorem appendItems_eq (targetItems : ItemCollection) (isSent : Bool) (startDate endDate : Time)
    (totalCount : Nat) (emails : List EmailInfo) :
    appendItems targetItems isSent startDate endDate totalCount emails
      = emails ++ (((List.range totalCount).filterMap (fun i =>
          (targetItems.Item (i + 1)).map
            (fun item => extractEmailInfo item isSent startDate endDate))).filter
          (fun r => decide (r.Subject ≠ []))) := by
  unfold appendItems
  generalize List.range totalCount = indices
  induction indices generalizing emails with
  | nil => simp
  | cons i rest ih =>
    rw [List.foldl_cons, ih]
    cases hitem : targetItems.Item (i + 1) with
    | none => simp [List.filterMap_cons, hitem]
    | some item =>
      by_cases hs : (extractEmailInfo item isSent startDate endDate).Subject = []
      · simp [List.filterMap_cons, hitem, List.filter_cons, hs]
      · simp [List.filterMap_cons, hitem, List.filter_cons, hs]

theorem appendItems_subject (targetItems : ItemCollection) (isSent : Bool)
    (startDate endDate : Time) (totalCount : Nat) (emails : List EmailInfo)
    (h : ∀ e ∈ emails, e.Subject ≠ []) :
    ∀ e ∈ appendItems targetItems isSent startDate endDate totalCount emails,
      e.Subject ≠ [] := by
  intro e he
  rw [appendItems_eq, List.mem_append] at he
  rcases he with he | he
  · exact h e he
  · have := (List.mem_filter.mp he).2
    simpa using this

theorem appendFolder_subject (startDate endDate : Time) (emails : List EmailInfo)
    (folder : MailFolder) (h : ∀ e ∈ emails, e.Subject ≠ []) :
    ∀ e ∈ appendFolder startDate endDate emails folder, e.Subject ≠ [] := by
  unfold appendFolder
  cases folder.Name with
  | none => exact h
  | some name =>
    cases folder.Items with
    | none => exact h
    | some items =>
      simp only []
      split
      · exact appendItems_subject _ _ _ _ _ _ h
      · exact h

theorem getEmailsInDateRange_subject (folders : List MailFolder) (startDate endDate : Time) :
    ∀ e ∈ getEmailsInDateRange folders startDate endDate, e.Subject ≠ [] := by
  unfold getEmailsInDateRange
  have hnil : ∀ e ∈ ([] : List EmailInfo), e.Subject ≠ [] := by
    intro e he
    exact absurd he (List.not_mem_nil e)
  generalize ([] : List EmailInfo) = emails at hnil ⊢
  induction folders generalizing emails with
  | nil => exact hnil
  | cons folder rest ih =>
    rw [List.foldl_cons]
    exact ih _ (appendFolder_subject startDate endDate emails folder hnil)

theorem getSentEmailsInDateRange_subject (accountFolder defaultFolder : Option MailFolder)
    (startDate endDate : Time) :
    ∀ e ∈ (getSentEmailsInDateRange accountFolder defaultFolder startDate endDate).1,
      e.Subject ≠ [] := by
  unfold getSentEmailsInDateRange
  intro e he
  split at he
  · exact absurd he (List.not_mem_nil e)
  · split at he
    · exact absurd he (List.not_mem_nil e)
    · split at he
      · exact appendItems_subject _ _ _ _ _ _
          (fun e he => absurd he (List.not_mem_nil e)) e he
      · exact absurd he (List.not_mem_nil e)

/-- C13: every record in the sequences returned by `getEmailsInDateRange` and
`getSentEmailsInDateRange` has a non-empty `Subject`, and so has every record
that `runAnalysis` hands to the four computations.  The item loop appends exactly
the records with a non-empty `Subject`: one whose `Subject` is empty, the value
`EmailInfo{}` for a time outside the range included, is left out. -/
theorem retrieved_subject_nonempty (folders : List MailFolder)
    (accountFolder defaultFolder : Option MailFolder) (startDate endDate : Time) :
    (∀ e ∈ getEmailsInDateRange folders startDate endDate, e.Subject ≠ [])
      ∧ (∀ e ∈ (getSentEmailsInDateRange accountFolder defaultFolder startDate endDate).1,
          e.Subject ≠ [])
      ∧ (∀ e ∈ (analysisInputs folders accountFolder defaultFolder startDate endDate).1,
          e.Subject ≠ [])
      ∧ (∀ e ∈ (analysisInputs folders accountFolder defaultFolder startDate endDate).2,
          e.Subject ≠ [])
      ∧ (∀ (targetItems : ItemCollection) (isSent : Bool) (totalCount : Nat)
          (emails : List EmailInfo),
          appendItems targetItems isSent startDate endDate totalCount emails
            = emails ++ (((List.range totalCount).filterMap (fun i =>
                (targetItems.Item (i + 1)).map
                  (fun item => extractEmailInfo item isSent startDate endDate))).filter
                (fun r => decide (r.Subject ≠ [])))) := by
  refine ⟨getEmailsInDateRange_subject folders startDate endDate,
    getSentEmailsInDateRange_subject accountFolder defaultFolder startDate endDate,
    getEmailsInDateRange_subject folders startDate endDate, ?_,
    fun targetItems isSent totalCount emails =>
      appendItems_eq targetItems isSent startDate endDate totalCount emails⟩
  intro e he
  unfold analysisInputs at he
  simp only [] at he
  split at he
  · exact absurd he (List.not_mem_nil e)
  · exact getSentEmailsInDateRange_subject accountFolder defaultFolder startDate endDate e he

/-- Witness of C13: of the four inbox items, the one stamped after the range (which
gives `EmailInfo{}`) and the one with an empty subject are left out; of the three
sent items one remains. -/
theorem retrieved_subject_nonempty_witness :
    (∀ e ∈ getEmailsInDateRange [sampleInbox] (jan5 0) (jan5 0), e.Subject ≠ [])
      ∧ (getEmailsInDateRange [sampleInbox] (jan5 0) (jan5 0)).map
            (fun e => (e.Subject, e.ReceivedTime))
          = [("Budget".toList, jan5 9), ("Budget".toList, jan5 11)]
      ∧ extractEmailInfo (receivedItem 48) false (jan5 0) (jan5 0) = EmailInfo.zero
      ∧ (getSentEmailsInDateRange none (some sampleSentFolder) (jan5 0) (jan5 0)).1.map
            (fun e => (e.Subject, e.SentTime))
          = [("Re: Budget".toList, jan5 17)] :=
  ⟨(retrieved_subject_nonempty [sampleInbox] none (some sampleSentFolder)
      (jan5 0) (jan5 0)).1,
    by decide, by decide, by decide⟩

/-! ## Two runs of the ranking -/

theorem rangeVisits_visitFrom (offset : Nat) : RangeVisits (visitFrom offset) := by
  intro m
  unfold visitFrom
  refine List.perm_append_comm.trans ?_
  rw [List.take_append_drop]

theorem sorted_perm (visit visit2 : GoMap GoString Nat → List (GoString × Nat))
    (sortSlice sortSlice2 : List SenderCount → (SenderCount → SenderCount → Bool) →
      List SenderCount)
    (hv : RangeVisits visit) (hv2 : RangeVisits visit2)
    (hs : SortsSlice sortSlice) (hs2 : SortsSlice sortSlice2) (m : GoMap GoString Nat) :
    (sortSlice ((visit m).map (fun entry => SenderCount.mk entry.1 entry.2)) lessByCount).Perm
      (sortSlice2 ((visit2 m).map (fun entry => SenderCount.mk entry.1 entry.2))
        lessByCount) := by
  refine (hs _ lessByCount).1.trans ?_
  refine List.Perm.trans ?_ (hs2 _ lessByCount).1.symm
  exact ((hv m).trans (hv2 m).symm).map _

theorem sorted_counts (visit : GoMap GoString Nat → List (GoString × Nat))
    (sortSlice : List SenderCount → (SenderCount → SenderCount → Bool) → List SenderCount)
    (hs : SortsSlice sortSlice) (m : GoMap GoString Nat) :
    (sortSlice ((visit m).map (fun entry => SenderCount.mk entry.1 entry.2))
      lessByCount).Pairwise (fun a b => a.Count ≥ b.Count) := by
  refine ((hs _ lessByCount).2 strictWeakOrder_lessByCount).imp ?_
  intro a b hab
  simp only [lessByCount, decide_eq_false_iff_not] at hab
  omega

/-- Two runs give the same sequence of counts. -/
theorem topFive_counts_eq (visit visit2 : GoMap GoString Nat → List (GoString × Nat))
    (sortSlice sortSlice2 : List SenderCount → (SenderCount → SenderCount → Bool) →
      List SenderCount)
    (hv : RangeVisits visit) (hv2 : RangeVisits visit2)
    (hs : SortsSlice sortSlice) (hs2 : SortsSlice sortSlice2) (m : GoMap GoString Nat) :
    (topFive visit sortSlice m).map SenderCount.Count
      = (topFive visit2 sortSlice2 m).map SenderCount.Count := by
  rw [topFive_eq_take, topFive_eq_take, List.map_take, List.map_take]
  congr 1
  refine List.eq_of_perm_of_sorted (r := fun x y : Nat => x ≥ y)
    ((sorted_perm visit visit2 sortSlice sortSlice2 hv hv2 hs hs2 m).map _) ?_ ?_
  · exact List.pairwise_map.mpr (sorted_counts visit sortSlice hs m)
  · exact List.pairwise_map.mpr (sorted_counts visit2 sortSlice2 hs2 m)

/-- C12, as stated, fails: two runs of `getTopSendersAndRecipients` on the same received
and sent sequences, whose `range` loops start at slot 0 and at slot 1, return
different lists.  With six senders of one record each the first run keeps "a" to
"e" and the second "b" to "f"; the two recipients come in opposite orders. -/
theorem getTopSendersAndRecipients_runs_differ :
    RangeVisits (visitFrom 0) ∧ RangeVisits (visitFrom 1) ∧ SortsSlice insertionSortSlice
      ∧ getTopSendersAndRecipients (visitFrom 0) (visitFrom 0) insertionSortSlice
            tiedReceived tiedSent
          = ([⟨"a".toList, 1⟩, ⟨"b".toList, 1⟩, ⟨"c".toList, 1⟩, ⟨"d".toList, 1⟩,
              ⟨"e".toList, 1⟩],
             [⟨"x@x.com".toList, 1⟩, ⟨"y@y.com".toList, 1⟩])
      ∧ getTopSendersAndRecipients (visitFrom 1) (visitFrom 1) insertionSortSlice
            tiedReceived tiedSent
          = ([⟨"b".toList, 1⟩, ⟨"c".toList, 1⟩, ⟨"d".toList, 1⟩, ⟨"e".toList, 1⟩,
              ⟨"f".toList, 1⟩],
             [⟨"y@y.com".toList, 1⟩, ⟨"x@x.com".toList, 1⟩])
      ∧ getTopSendersAndRecipients (visitFrom 0) (visitFrom 0) insertionSortSlice
            tiedReceived tiedSent
          ≠ getTopSendersAndRecipients (visitFrom 1) (visitFrom 1) insertionSortSlice
            tiedReceived tiedSent :=
  ⟨rangeVisits_visitFrom 0, rangeVisits_visitFrom 1, sortsSlice_insertionSortSlice,
    by decide, by decide, by decide⟩

/-! ## Empty inputs -/

theorem topFive_nil (visit : GoMap GoString Nat → List (GoString × Nat))
    (sortSlice : List SenderCount → (SenderCount → SenderCount → Bool) → List SenderCount)
    (hv : RangeVisits visit) (hs : SortsSlice sortSlice) : topFive visit sortSlice [] = [] := by
  rw [topFive_eq_take, (hv []).eq_nil, List.map_nil, ((hs [] lessByCount).1).eq_nil]
  rfl

/-- C14: on empty inputs every aggregate is zero or empty.  `analyzeReadStatus` of the
empty sequence returns two zero counts and two percentages left at the zero value
of `float64`; `classifyEmails` of the empty sequence returns `(0, 0, 0)`; the
senders list is empty when no record was received and the recipients list when
none was sent; `findRepliedEmails` returns `(0, 0)` when no record was received,
and for every received sequence when none was sent. -/
theorem empty_inputs {F : Type} (fl : Float64Ops F) (ct : Char → Char)
    (visitSenders visitRecipients : GoMap GoString Nat → List (GoString × Nat))
    (sortSlice : List SenderCount → (SenderCount → SenderCount → Bool) → List SenderCount)
    (hS : RangeVisits visitSenders) (hR : RangeVisits visitRecipients)
    (hs : SortsSlice sortSlice) (received sent : List EmailInfo) :
    analyzeReadStatus fl [] = (0, 0, fl.zero, fl.zero)
      ∧ classifyEmails ct [] = (0, 0, 0)
      ∧ (getTopSendersAndRecipients visitSenders visitRecipients sortSlice [] sent).1 = []
      ∧ (getTopSendersAndRecipients visitSenders visitRecipients sortSlice received []).2 = []
      ∧ findRepliedEmails ct [] sent = (0, 0)
      ∧ findRepliedEmails ct received [] = (0, 0) := by
  refine ⟨rfl, rfl, ?_, ?_, ?_, rfl⟩
  · exact topFive_nil visitSenders sortSlice hS hs
  · exact topFive_nil visitRecipients sortSlice hR hs
  · unfold findRepliedEmails
    split <;> rfl

/-- Witness of C14 with exact arithmetic for the percentages, where the zero value is the
number 0: the results on the sample records when one of the two sequences is
empty, and on two empty sequences. -/
theorem empty_inputs_witness :
    RangeVisits visitInOrder ∧ RangeVisits visitReversed ∧ SortsSlice insertionSortSlice
      ∧ (analyzeReadStatus exactOps [] = (0, 0, exactOps.zero, exactOps.zero)
          ∧ classifyEmails id [] = (0, 0, 0)
          ∧ (getTopSendersAndRecipients visitInOrder visitReversed insertionSortSlice []
              sampleSent).1 = []
          ∧ (getTopSendersAndRecipients visitInOrder visitReversed insertionSortSlice
              sampleReceived []).2 = []
          ∧ findRepliedEmails id [] sampleSent = (0, 0)
          ∧ findRepliedEmails id sampleReceived [] = (0, 0))
      ∧ analyzeReadStatus exactOps [] = (0, 0, 0, 0)
      ∧ getTopSendersAndRecipients visitInOrder visitReversed insertionSortSlice [] []
          = ([], []) :=
  ⟨rangeVisits_visitInOrder, rangeVisits_visitReversed, sortsSlice_insertionSortSlice,
    empty_inputs exactOps id visitInOrder visitReversed insertionSortSlice
      rangeVisits_visitInOrder rangeVisits_visitReversed sortsSlice_insertionSortSlice
      sampleReceived sampleSent,
    rfl, by decide⟩

/-! ## Read status in binary64 -/

theorem pow2_eq_zpow (e : Int) : pow2 e = (2 : ℚ) ^ e := by
  unfold pow2
  split
  · rename_i h
    have he : e = (e.toNat : Int) := (Int.toNat_of_nonneg h).symm
    conv_rhs => rw [he]
    rw [zpow_natCast]
    push_cast
    rfl
  · rename_i h
    have he : e = -((-e).toNat : Int) := by omega
    conv_rhs => rw [he]
    rw [zpow_neg, zpow_natCast]
    push_cast
    rw [one_div]

theorem pow2_pos (e : Int) : 0 < pow2 e := by
  rw [pow2_eq_zpow]
  positivity

theorem bitsBelow_spec (fuel n : Nat) (hn : 0 < n) (hf : n ≤ fuel) :
    2 ^ bitsBelow fuel n ≤ n ∧ n < 2 ^ (bitsBelow fuel n + 1) := by
  induction fuel generalizing n with
  | zero => omega
  | succ fuel ih =>
    unfold bitsBelow
    by_cases h2 : n < 2
    · rw [if_pos h2]
      simp
      omega
    · rw [if_neg h2]
      have h := ih (n / 2) (by omega) (by omega)
      have e1 : 2 ^ (bitsBelow fuel (n / 2) + 1) = 2 ^ bitsBelow fuel (n / 2) * 2 :=
        pow_succ 2 _
      have e2 : 2 ^ (bitsBelow fuel (n / 2) + 1 + 1) = 2 ^ bitsBelow fuel (n / 2) * 2 * 2 := by
        rw [pow_succ, pow_succ]
      rw [e1] at h
      rw [e2, e1]
      generalize 2 ^ bitsBelow fuel (n / 2) = P at h ⊢
      omega

theorem floorLog2_spec (n : Nat) (hn : 0 < n) :
    2 ^ floorLog2 n ≤ n ∧ n < 2 ^ (floorLog2 n + 1) :=
  bitsBelow_spec n n hn (Nat.le_refl n)

theorem rat_eq_toNat_div (x : ℚ) (hx : 0 ≤ x) : x = (x.num.toNat : ℚ) / (x.den : ℚ) := by
  have hnum : 0 ≤ x.num := Rat.num_nonneg.mpr hx
  have h1 : ((x.num.toNat : ℕ) : ℚ) = ((x.num : ℤ) : ℚ) := by
    have : ((x.num.toNat : ℕ) : ℤ) = x.num := Int.toNat_of_nonneg hnum
    exact_mod_cast congrArg (fun z : ℤ => (z : ℚ)) this
  rw [h1]
  exact (Rat.num_div_den x).symm

theorem zpow_two_sub (a b : ℕ) :
    (2 : ℚ) ^ ((a : ℤ) - (b : ℤ)) = (2 : ℚ) ^ a / (2 : ℚ) ^ b := by
  rw [zpow_sub₀ (by norm_num : (2 : ℚ) ≠ 0), zpow_natCast, zpow_natCast]

/-- The lower end of the binade: `2 ^ E ≤ x`. -/
theorem pow2_binade_le (x : ℚ) (hx : 0 < x) : pow2 (binade x) ≤ x := by
  unfold binade
  simp only []
  split
  · assumption
  · have hnum : 0 < x.num := Rat.num_pos.mpr hx
    have hp : 0 < x.num.toNat := by omega
    have ha := (floorLog2_spec x.num.toNat hp).1
    have hb := (floorLog2_spec x.den x.den_pos).2
    rw [pow2_eq_zpow]
    have hxe := rat_eq_toNat_div x hx.le
    have ha2 : (2 : ℚ) ^ (floorLog2 x.num.toNat) ≤ (x.num.toNat : ℚ) := by exact_mod_cast ha
    have hb2 : (x.den : ℚ) ≤ (2 : ℚ) ^ (floorLog2 x.den + 1) := by exact_mod_cast hb.le
    have hqpos : (0 : ℚ) < (x.den : ℚ) := by exact_mod_cast x.den_pos
    have he : (floorLog2 x.num.toNat : ℤ) - (floorLog2 x.den : ℤ) - 1
        = (floorLog2 x.num.toNat : ℤ) - ((floorLog2 x.den + 1 : ℕ) : ℤ) := by
      push_cast
      ring
    rw [he, zpow_two_sub]
    calc (2 : ℚ) ^ (floorLog2 x.num.toNat) / (2 : ℚ) ^ (floorLog2 x.den + 1)
        ≤ (x.num.toNat : ℚ) / (2 : ℚ) ^ (floorLog2 x.den + 1) := by gcongr
      _ ≤ (x.num.toNat : ℚ) / (x.den : ℚ) := by gcongr
      _ = x := hxe.symm

/-- The upper end of the binade: `x < 2 ^ (E + 1)`. -/
theorem lt_pow2_binade_succ (x : ℚ) (hx : 0 < x) : x < pow2 (binade x + 1) := by
  unfold binade
  simp only []
  split
  · have hnum : 0 < x.num := Rat.num_pos.mpr hx
    have hp : 0 < x.num.toNat := by omega
    have ha := (floorLog2_spec x.num.toNat hp).2
    have hb := (floorLog2_spec x.den x.den_pos).1
    rw [pow2_eq_zpow]
    have hxe := rat_eq_toNat_div x hx.le
    have ha2 : (x.num.toNat : ℚ) < (2 : ℚ) ^ (floorLog2 x.num.toNat + 1) := by exact_mod_cast ha
    have hb2 : (2 : ℚ) ^ (floorLog2 x.den) ≤ (x.den : ℚ) := by exact_mod_cast hb
    have hqpos : (0 : ℚ) < (x.den : ℚ) := by exact_mod_cast x.den_pos
    have he : (floorLog2 x.num.toNat : ℤ) - (floorLog2 x.den : ℤ) + 1
        = ((floorLog2 x.num.toNat + 1 : ℕ) : ℤ) - (floorLog2 x.den : ℤ) := by
      push_cast
      ring
    rw [he, zpow_two_sub]
    calc x = (x.num.toNat : ℚ) / (x.den : ℚ) := hxe
      _ ≤ (x.num.toNat : ℚ) / (2 : ℚ) ^ (floorLog2 x.den) := by gcongr
      _ < (2 : ℚ) ^ (floorLog2 x.num.toNat + 1) / (2 : ℚ) ^ (floorLog2 x.den) := by gcongr
  · rename_i h
    rw [sub_add_cancel]
    exact lt_of_not_le h

theorem roundHalfEven_near (m : ℚ) (hm : 0 ≤ m) :
    |(roundHalfEven m : ℚ) - m| ≤ 1 / 2 := by
  have hq : 0 < m.den := m.den_pos
  have hqpos : (0 : ℚ) < (m.den : ℚ) := by exact_mod_cast hq
  have hme := rat_eq_toNat_div m hm
  have hdm := Nat.div_add_mod m.num.toNat m.den
  have hmod := Nat.mod_lt m.num.toNat hq
  have hlo : ((m.num.toNat / m.den : ℕ) : ℚ) ≤ m := by
    have h1 : ((m.num.toNat / m.den : ℕ) : ℚ) ≤ (m.num.toNat : ℚ) / (m.den : ℚ) := by
      rw [le_div_iff₀ hqpos]
      have : m.num.toNat / m.den * m.den ≤ m.num.toNat := Nat.div_mul_le_self _ _
      exact_mod_cast this
    rwa [← hme] at h1
  have hhi : m < ((m.num.toNat / m.den : ℕ) : ℚ) + 1 := by
    have h1 : (m.num.toNat : ℚ) / (m.den : ℚ) < ((m.num.toNat / m.den : ℕ) : ℚ) + 1 := by
      rw [div_lt_iff₀ hqpos]
      have : m.num.toNat < (m.num.toNat / m.den + 1) * m.den := by
        rw [Nat.add_mul, Nat.one_mul, Nat.mul_comm]
        omega
      exact_mod_cast this
    rwa [← hme] at h1
  unfold roundHalfEven
  simp only []
  split
  · rename_i h
    rw [abs_le]
    constructor <;> linarith
  · split
    · rename_i h1 h2
      push_cast
      rw [abs_le]
      constructor <;> linarith
    · rename_i h1 h2
      have hr : m - ((m.num.toNat / m.den : ℕ) : ℚ) = 1 / 2 := by
        push_neg at h1 h2
        linarith
      split
      · rw [abs_le]
        constructor <;> linarith
      · push_cast
        rw [abs_le]
        constructor <;> linarith

theorem pow2_split (E : Int) : pow2 E = pow2 (E - 52) * 4503599627370496 := by
  rw [pow2_eq_zpow, pow2_eq_zpow, zpow_sub₀ (by norm_num : (2 : ℚ) ≠ 0)]
  norm_num

/-- The significand that `roundBinary64` rounds has 53 bits, and so has the result. -/
theorem roundBinary64_significand (x : ℚ) (hx : 0 < x) :
    4503599627370496 ≤ x / pow2 (binade x - 52)
      ∧ x / pow2 (binade x - 52) < 9007199254740992
      ∧ 4503599627370496 ≤ roundHalfEven (x / pow2 (binade x - 52))
      ∧ roundHalfEven (x / pow2 (binade x - 52)) ≤ 9007199254740992 := by
  have hP := pow2_pos (binade x - 52)
  have hlow := pow2_binade_le x hx
  have hup := lt_pow2_binade_succ x hx
  have hup2 : pow2 (binade x + 1) = pow2 (binade x - 52) * 9007199254740992 := by
    rw [pow2_split (binade x + 1), pow2_eq_zpow, pow2_eq_zpow,
      show binade x + 1 - 52 = (binade x - 52) + 1 by ring,
      zpow_add₀ (by norm_num : (2 : ℚ) ≠ 0)]
    norm_num
    ring
  rw [pow2_split] at hlow
  rw [hup2] at hup
  have h1 : (4503599627370496 : ℚ) ≤ x / pow2 (binade x - 52) := by
    rw [le_div_iff₀ hP]
    linarith
  have h2 : x / pow2 (binade x - 52) < 9007199254740992 := by
    rw [div_lt_iff₀ hP]
    linarith
  have hnear := roundHalfEven_near (x / pow2 (binade x - 52)) (le_trans (by norm_num) h1)
  rw [abs_le] at hnear
  refine ⟨h1, h2, ?_, ?_⟩
  · have : (4503599627370496 : ℚ) - 1 < (roundHalfEven (x / pow2 (binade x - 52)) : ℚ) := by
      linarith
    have h3 : ((4503599627370496 - 1 : ℕ) : ℚ)
        < (roundHalfEven (x / pow2 (binade x - 52)) : ℚ) := by
      push_cast
      linarith
    have h4 := Nat.cast_lt.mp h3
    omega
  · have h3 : (roundHalfEven (x / pow2 (binade x - 52)) : ℚ)
        < ((9007199254740992 + 1 : ℕ) : ℚ) := by
      push_cast
      linarith
    have h4 := Nat.cast_lt.mp h3
    omega

/-- Rounding to binary64 moves a non-negative value by at most the fraction `2 ^ -53` of
it. -/
theorem roundBinary64_near (x : ℚ) (hx : 0 ≤ x) :
    |roundBinary64 x - x| ≤ x / 9007199254740992 := by
  unfold roundBinary64
  split
  · rename_i h0
    subst h0
    simp
  · rename_i h0
    have hpos : 0 < x := lt_of_le_of_ne hx (Ne.symm h0)
    rw [if_pos hpos]
    have hP := pow2_pos (binade x - 52)
    have hm : 0 ≤ x / pow2 (binade x - 52) := div_nonneg hx hP.le
    have hnear := roundHalfEven_near _ hm
    have hlow := pow2_binade_le x hpos
    rw [pow2_split] at hlow
    generalize pow2 (binade x - 52) = P at hP hm hnear hlow
    generalize (roundHalfEven (x / P) : ℚ) = r at hnear
    have hx2 : x = x / P * P := by field_simp
    have : r * P - x = (r - x / P) * P := by rw [sub_mul, ← hx2]
    rw [this, abs_mul, abs_of_pos hP]
    calc |r - x / P| * P ≤ 1 / 2 * P := by gcongr
      _ ≤ x / 9007199254740992 := by linarith

theorem roundBinary64_between (x : ℚ) (hx : 0 ≤ x) :
    x * (1 - unitRoundoff) ≤ roundBinary64 x ∧ roundBinary64 x ≤ x * (1 + unitRoundoff) := by
  have h := roundBinary64_near x hx
  rw [abs_le] at h
  unfold unitRoundoff
  constructor <;> linarith

theorem roundBinary64_hundred : roundBinary64 100 = 100 := by decide!

theorem unitRoundoff_bounds : 0 < unitRoundoff ∧ unitRoundoff < 1 := by
  unfold unitRoundoff
  constructor <;> norm_num

/-- The percentage `float64(count) / float64(total) * 100` in binary64 against the exact
`100 * count / total`: three roundings up and one down at most, or the reverse. -/
theorem percentage_between (a n : ℕ) (hn : 0 < n) :
    100 * ((a : ℚ) / n) * ((1 - unitRoundoff) ^ 3 / (1 + unitRoundoff))
        ≤ binary64Ops.mul (binary64Ops.div (binary64Ops.ofInt a) (binary64Ops.ofInt n))
            (binary64Ops.ofInt 100)
      ∧ binary64Ops.mul (binary64Ops.div (binary64Ops.ofInt a) (binary64Ops.ofInt n))
            (binary64Ops.ofInt 100)
          ≤ 100 * ((a : ℚ) / n) * ((1 + unitRoundoff) ^ 3 / (1 - unitRoundoff)) := by
  obtain ⟨hu0, hu1⟩ := unitRoundoff_bounds
  have h1m : 0 < 1 - unitRoundoff := by linarith
  have h1p : 0 < 1 + unitRoundoff := by linarith
  have ha0 : (0 : ℚ) ≤ (a : ℚ) := Nat.cast_nonneg a
  have hn0 : (0 : ℚ) < (n : ℚ) := by exact_mod_cast hn
  have hA := roundBinary64_between (a : ℚ) ha0
  have hN := roundBinary64_between (n : ℚ) hn0.le
  have hApos : 0 ≤ roundBinary64 (a : ℚ) := le_trans (mul_nonneg ha0 h1m.le) hA.1
  have hNpos : 0 < roundBinary64 (n : ℚ) := lt_of_lt_of_le (mul_pos hn0 h1m) hN.1
  have hQ := roundBinary64_between (roundBinary64 (a : ℚ) / roundBinary64 (n : ℚ))
    (div_nonneg hApos hNpos.le)
  have hQpos : 0 ≤ roundBinary64 (roundBinary64 (a : ℚ) / roundBinary64 (n : ℚ)) :=
    le_trans (mul_nonneg (div_nonneg hApos hNpos.le) h1m.le) hQ.1
  have hP := roundBinary64_between
    (roundBinary64 (roundBinary64 (a : ℚ) / roundBinary64 (n : ℚ)) * 100)
    (mul_nonneg hQpos (by norm_num))
  have hdiv_up : roundBinary64 (a : ℚ) / roundBinary64 (n : ℚ)
      ≤ (a : ℚ) * (1 + unitRoundoff) / ((n : ℚ) * (1 - unitRoundoff)) := by
    have hden : 0 < (n : ℚ) * (1 - unitRoundoff) := mul_pos hn0 h1m
    exact div_le_div₀ (mul_nonneg ha0 h1p.le) hA.2 hden hN.1
  have hdiv_lo : (a : ℚ) * (1 - unitRoundoff) / ((n : ℚ) * (1 + unitRoundoff))
      ≤ roundBinary64 (a : ℚ) / roundBinary64 (n : ℚ) :=
    div_le_div₀ hApos hA.1 hNpos hN.2
  show _ ≤ roundBinary64 (roundBinary64 (roundBinary64 (a : ℚ) / roundBinary64 (n : ℚ))
      * roundBinary64 ((100 : ℕ) : ℚ))
    ∧ roundBinary64 (roundBinary64 (roundBinary64 (a : ℚ) / roundBinary64 (n : ℚ))
      * roundBinary64 ((100 : ℕ) : ℚ)) ≤ _
  have h100 : roundBinary64 ((100 : ℕ) : ℚ) = 100 := by
    rw [show ((100 : ℕ) : ℚ) = 100 by norm_num]
    exact roundBinary64_hundred
  rw [h100]
  constructor
  · calc 100 * ((a : ℚ) / n) * ((1 - unitRoundoff) ^ 3 / (1 + unitRoundoff))
        = (a : ℚ) * (1 - unitRoundoff) / ((n : ℚ) * (1 + unitRoundoff))
            * (1 - unitRoundoff) * 100 * (1 - unitRoundoff) := by
          field_simp
          ring
      _ ≤ roundBinary64 (a : ℚ) / roundBinary64 (n : ℚ)
            * (1 - unitRoundoff) * 100 * (1 - unitRoundoff) := by gcongr
      _ ≤ roundBinary64 (roundBinary64 (a : ℚ) / roundBinary64 (n : ℚ))
            * 100 * (1 - unitRoundoff) := by
          have := hQ.1
          gcongr
      _ ≤ _ := hP.1
  · calc roundBinary64 (roundBinary64 (roundBinary64 (a : ℚ) / roundBinary64 (n : ℚ)) * 100)
        ≤ roundBinary64 (roundBinary64 (a : ℚ) / roundBinary64 (n : ℚ))
            * 100 * (1 + unitRoundoff) := hP.2
      _ ≤ roundBinary64 (a : ℚ) / roundBinary64 (n : ℚ)
            * (1 + unitRoundoff) * 100 * (1 + unitRoundoff) := by
          have := hQ.2
          gcongr
      _ ≤ (a : ℚ) * (1 + unitRoundoff) / ((n : ℚ) * (1 - unitRoundoff))
            * (1 + unitRoundoff) * 100 * (1 + unitRoundoff) := by gcongr
      _ = 100 * ((a : ℚ) / n) * ((1 + unitRoundoff) ^ 3 / (1 - unitRoundoff)) := by
          field_simp
          ring

theorem roundoff_numbers :
    100 * ((1 + unitRoundoff) ^ 3 / (1 - unitRoundoff)) - 100 ≤ 1 / 17592186044416
      ∧ 100 - 100 * ((1 - unitRoundoff) ^ 3 / (1 + unitRoundoff)) ≤ 1 / 17592186044416
      ∧ (1 - unitRoundoff) ^ 3 / (1 + unitRoundoff) ≤ 1
      ∧ 1 ≤ (1 + unitRoundoff) ^ 3 / (1 - unitRoundoff) := by
  unfold unitRoundoff
  norm_num

theorem percentage_near (x p L U ε : ℚ) (hx1 : x ≤ 1)
    (hL : L ≤ 1) (hU : 1 ≤ U) (hεU : 100 * U - 100 ≤ ε) (hεL : 100 - 100 * L ≤ ε)
    (hlo : 100 * x * L ≤ p) (hhi : p ≤ 100 * x * U) : |p - 100 * x| ≤ ε := by
  have h1 : 0 ≤ (1 - x) * (U - 1) := mul_nonneg (by linarith) (by linarith)
  have h2 : 0 ≤ (1 - x) * (1 - L) := mul_nonneg (by linarith) (by linarith)
  rw [abs_le]
  constructor <;> nlinarith

/-- C9, as stated, fails: with one read and two unread records the two percentages in
binary64 are `2345624805922133 / 2 ^ 46` and `2345624805922133 / 2 ^ 45`.  Their
sum is `100 - 2 ^ -46`, which is a binary64 number itself, and neither of them is
100 times its count divided by 3. -/
theorem analyzeReadStatus_sum_not_100 :
    analyzeReadStatus binary64Ops [mkRead true, mkRead false, mkRead false]
        = (1, 2, 2345624805922133 / 70368744177664, 2345624805922133 / 35184372088832)
      ∧ (analyzeReadStatus binary64Ops [mkRead true, mkRead false, mkRead false]).2.2.1
          + (analyzeReadStatus binary64Ops [mkRead true, mkRead false, mkRead false]).2.2.2
          = 100 - 1 / 70368744177664
      ∧ (analyzeReadStatus binary64Ops [mkRead true, mkRead false, mkRead false]).2.2.1
          + (analyzeReadStatus binary64Ops [mkRead true, mkRead false, mkRead false]).2.2.2
          ≠ 100
      ∧ roundBinary64
          ((analyzeReadStatus binary64Ops [mkRead true, mkRead false, mkRead false]).2.2.1
            + (analyzeReadStatus binary64Ops [mkRead true, mkRead false, mkRead false]).2.2.2)
          ≠ 100
      ∧ (analyzeReadStatus binary64Ops [mkRead true, mkRead false, mkRead false]).2.2.1
          ≠ 100 * 1 / 3 := by
  decide!

/-- C9, amended: the two counts are the numbers of records with `IsRead` true and
false.  In binary64 the read and the unread percentage of a non-empty sequence
are each within `2 ^ -44` of 100 times the count divided by the length, and their
sum is within `2 ^ -44` of 100.  On the empty sequence both are 0 and no
operation of `float64` is performed, whatever the operations are. -/
theorem analyzeReadStatus_binary64 (emails : List EmailInfo) (h : emails ≠ []) :
    (analyzeReadStatus binary64Ops emails).1 = (emails.filter (fun e => e.IsRead)).length
      ∧ (analyzeReadStatus binary64Ops emails).2.1
          = (emails.filter (fun e => !e.IsRead)).length
      ∧ |(analyzeReadStatus binary64Ops emails).2.2.1
          + (analyzeReadStatus binary64Ops emails).2.2.2 - 100| ≤ 1 / 17592186044416
      ∧ |(analyzeReadStatus binary64Ops emails).2.2.1
          - 100 * (((emails.filter (fun e => e.IsRead)).length : ℚ) / (emails.length : ℚ))|
          ≤ 1 / 17592186044416
      ∧ |(analyzeReadStatus binary64Ops emails).2.2.2
          - 100 * (((emails.filter (fun e => !e.IsRead)).length : ℚ) / (emails.length : ℚ))|
          ≤ 1 / 17592186044416
      ∧ analyzeReadStatus binary64Ops [] = (0, 0, 0, 0)
      ∧ (∀ (F : Type) (fl : Float64Ops F),
          analyzeReadStatus fl [] = (0, 0, fl.zero, fl.zero)) := by
  have hpos : 0 < emails.length := List.length_pos.mpr h
  have htot := length_read_add_unread emails
  obtain ⟨hεU, hεL, hL, hU⟩ := roundoff_numbers
  have hres : analyzeReadStatus binary64Ops emails
      = ((emails.filter (fun e => e.IsRead)).length,
         (emails.filter (fun e => !e.IsRead)).length,
         binary64Ops.mul (binary64Ops.div
            (binary64Ops.ofInt (emails.filter (fun e => e.IsRead)).length)
            (binary64Ops.ofInt emails.length)) (binary64Ops.ofInt 100),
         binary64Ops.mul (binary64Ops.div
            (binary64Ops.ofInt (emails.filter (fun e => !e.IsRead)).length)
            (binary64Ops.ofInt emails.length)) (binary64Ops.ofInt 100)) := by
    unfold analyzeReadStatus
    simp only [foldl_tallyRead, Nat.zero_add]
    rw [if_pos (by omega), htot]
  rw [hres]
  simp only []
  have hA := percentage_between (emails.filter (fun e => e.IsRead)).length emails.length hpos
  have hB := percentage_between (emails.filter (fun e => !e.IsRead)).length emails.length hpos
  have hn0 : (0 : ℚ) < (emails.length : ℚ) := by exact_mod_cast hpos
  have hsum : ((emails.filter (fun e => e.IsRead)).length : ℚ) / (emails.length : ℚ)
      + ((emails.filter (fun e => !e.IsRead)).length : ℚ) / (emails.length : ℚ) = 1 := by
    rw [← add_div, div_eq_one_iff_eq hn0.ne']
    exact_mod_cast htot
  have hx0 : 0 ≤ ((emails.filter (fun e => e.IsRead)).length : ℚ) / (emails.length : ℚ) :=
    div_nonneg (Nat.cast_nonneg _) hn0.le
  have hy0 : 0 ≤ ((emails.filter (fun e => !e.IsRead)).length : ℚ) / (emails.length : ℚ) :=
    div_nonneg (Nat.cast_nonneg _) hn0.le
  generalize ((emails.filter (fun e => e.IsRead)).length : ℚ) / (emails.length : ℚ) = x
    at hA hsum hx0
  generalize ((emails.filter (fun e => !e.IsRead)).length : ℚ) / (emails.length : ℚ) = y
    at hB hsum hy0
  generalize binary64Ops.mul (binary64Ops.div
      (binary64Ops.ofInt (emails.filter (fun e => e.IsRead)).length)
      (binary64Ops.ofInt emails.length)) (binary64Ops.ofInt 100) = p at hA
  generalize binary64Ops.mul (binary64Ops.div
      (binary64Ops.ofInt (emails.filter (fun e => !e.IsRead)).length)
      (binary64Ops.ofInt emails.length)) (binary64Ops.ofInt 100) = q at hB
  generalize (1 - unitRoundoff) ^ 3 / (1 + unitRoundoff) = L at hA hB hεL hL
  generalize (1 + unitRoundoff) ^ 3 / (1 - unitRoundoff) = U at hA hB hεU hU
  refine ⟨trivial, trivial, ?_, ?_, ?_, rfl, fun F fl => rfl⟩
  · have hxy : p + q - 100 = (p - 100 * x) + (q - 100 * y) := by
      have : 100 * x + 100 * y = 100 := by linarith
      linarith
    rw [abs_le]
    have h1 : 100 * x * L + 100 * y * L = 100 * L := by
      have : (x + y) * (100 * L) = 100 * L := by rw [hsum, one_mul]
      linarith
    have h2 : 100 * x * U + 100 * y * U = 100 * U := by
      have : (x + y) * (100 * U) = 100 * U := by rw [hsum, one_mul]
      linarith
    constructor <;> linarith [hA.1, hA.2, hB.1, hB.2]
  · exact percentage_near x p L U _ (by linarith) hL hU hεU hεL hA.1 hA.2
  · exact percentage_near y q L U _ (by linarith) hL hU hεU hεL hB.1 hB.2

/-- Witness of the amended C9 on one read and two unread records, where the sum of the
percentages is `100 - 2 ^ -46`. -/
theorem analyzeReadStatus_binary64_witness :
    [mkRead true, mkRead false, mkRead false] ≠ []
      ∧ |(analyzeReadStatus binary64Ops [mkRead true, mkRead false, mkRead false]).2.2.1
          + (analyzeReadStatus binary64Ops [mkRead true, mkRead false, mkRead false]).2.2.2
          - 100| ≤ 1 / 17592186044416
      ∧ (analyzeReadStatus binary64Ops [mkRead true, mkRead false, mkRead false]).2.2.1
          + (analyzeReadStatus binary64Ops [mkRead true, mkRead false, mkRead false]).2.2.2
          - 100 = -(1 / 70368744177664)
      ∧ analyzeReadStatus binary64Ops [mkRead true, mkRead true, mkRead false, mkRead false]
          = (2, 2, 50, 50) :=
  ⟨by decide,
    (analyzeReadStatus_binary64 [mkRead true, mkRead false, mkRead false]
      (by decide)).2.2.1,
    by decide!, by decide!⟩

/-! ## Ties in the ranking -/

theorem filter_greater_length (t : List SenderCount) (c i : Nat) (e : SenderCount)
    (hs : t.Pairwise (fun a b => a.Count ≥ b.Count))
    (hu : (t.map SenderCount.Count).count c = 1)
    (hi : t[i]? = some e) (hc : e.Count = c) :
    (t.filter (fun a => decide (a.Count > c))).length = i := by
  obtain ⟨hlt, hget⟩ := List.getElem?_eq_some.mp hi
  have ht : t = t.take i ++ e :: t.drop (i + 1) := by
    conv_lhs => rw [← List.take_append_drop i t, List.drop_eq_getElem_cons hlt, hget]
  have hlen : (t.take i).length = i := by
    rw [List.length_take]
    omega
  generalize t.take i = A at ht hlen
  generalize t.drop (i + 1) = B at ht
  subst ht
  rw [List.pairwise_append, List.pairwise_cons] at hs
  obtain ⟨_, ⟨hB, _⟩, hA⟩ := hs
  rw [List.map_append, List.map_cons, List.count_append, List.count_cons, hc] at hu
  simp only [beq_self_eq_true, if_true] at hu
  have hA0 : (A.map SenderCount.Count).count c = 0 := by omega
  have hB0 : (B.map SenderCount.Count).count c = 0 := by omega
  rw [List.count_eq_zero] at hA0 hB0
  have hfA : A.filter (fun a => decide (a.Count > c)) = A := by
    rw [List.filter_eq_self]
    intro a ha
    have h1 := hA a ha e (List.mem_cons_self _ _)
    have h2 : a.Count ≠ c := fun h => hA0 (List.mem_map.mpr ⟨a, ha, h⟩)
    simp only [decide_eq_true_eq]
    omega
  have hfB : (e :: B).filter (fun a => decide (a.Count > c)) = [] := by
    rw [List.filter_eq_nil_iff]
    intro a ha
    simp only [decide_eq_true_eq, not_lt]
    rcases List.mem_cons.mp ha with h | h
    · rw [h, hc]
    · have h1 := hB a h
      omega
  rw [List.filter_append, hfA, hfB, List.append_nil, hlen]

theorem sorted_unique_position (t t2 : List SenderCount) (hp : t.Perm t2)
    (hs : t.Pairwise (fun a b => a.Count ≥ b.Count))
    (hs2 : t2.Pairwise (fun a b => a.Count ≥ b.Count))
    (i : Nat) (e : SenderCount) (hi : t[i]? = some e)
    (hu : (t.map SenderCount.Count).count e.Count = 1) : t2[i]? = some e := by
  have hmem : e ∈ t2 := hp.subset (List.getElem?_mem hi)
  obtain ⟨j, hj⟩ := List.mem_iff_getElem?.mp hmem
  have hu2 : (t2.map SenderCount.Count).count e.Count = 1 := by
    rw [← (hp.map SenderCount.Count).count_eq]
    exact hu
  have h1 := filter_greater_length t e.Count i e hs hu hi rfl
  have h2 := filter_greater_length t2 e.Count j e hs2 hu2 hj rfl
  have h3 := (hp.filter (fun a => decide (a.Count > e.Count))).length_eq
  have hij : i = j := by omega
  rw [hij]
  exact hj

theorem sorted_counts_perm (visit : GoMap GoString Nat → List (GoString × Nat))
    (sortSlice : List SenderCount → (SenderCount → SenderCount → Bool) → List SenderCount)
    (hv : RangeVisits visit) (hs : SortsSlice sortSlice) (m : GoMap GoString Nat) :
    ((sortSlice ((visit m).map (fun entry => SenderCount.mk entry.1 entry.2))
      lessByCount).map SenderCount.Count).Perm (m.map Prod.snd) := by
  refine ((hs _ lessByCount).1.map SenderCount.Count).trans ?_
  rw [List.map_map]
  exact (hv m).map Prod.snd

/-- An entry whose count belongs to one key only stands at the same position in every
run. -/
theorem topFive_unique_position (visit visit2 : GoMap GoString Nat → List (GoString × Nat))
    (sortSlice sortSlice2 : List SenderCount → (SenderCount → SenderCount → Bool) →
      List SenderCount)
    (hv : RangeVisits visit) (hv2 : RangeVisits visit2)
    (hs : SortsSlice sortSlice) (hs2 : SortsSlice sortSlice2) (m : GoMap GoString Nat)
    (i : Nat) (e : SenderCount) (hi : (topFive visit sortSlice m)[i]? = some e)
    (hu : CountUnique m e.Count) : (topFive visit2 sortSlice2 m)[i]? = some e := by
  rw [topFive_eq_take, List.getElem?_take] at hi ⊢
  by_cases h5 : i < 5
  · rw [if_pos h5] at hi ⊢
    refine sorted_unique_position _ _
      (sorted_perm visit visit2 sortSlice sortSlice2 hv hv2 hs hs2 m)
      (sorted_counts visit sortSlice hs m) (sorted_counts visit2 sortSlice2 hs2 m) i e hi ?_
    rw [(sorted_counts_perm visit sortSlice hv hs m).count_eq]
    exact hu
  · rw [if_neg h5] at hi
    exact absurd hi (by simp)

theorem topFive_agree (visit visit2 : GoMap GoString Nat → List (GoString × Nat))
    (sortSlice sortSlice2 : List SenderCount → (SenderCount → SenderCount → Bool) →
      List SenderCount)
    (hv : RangeVisits visit) (hv2 : RangeVisits visit2)
    (hs : SortsSlice sortSlice) (hs2 : SortsSlice sortSlice2) (m : GoMap GoString Nat) :
    AgreeUpToTies m (topFive visit sortSlice m) (topFive visit2 sortSlice2 m) := by
  refine ⟨topFive_counts_eq visit visit2 sortSlice sortSlice2 hv hv2 hs hs2 m,
    fun i e hi hu =>
      topFive_unique_position visit visit2 sortSlice sortSlice2 hv hv2 hs hs2 m i e hi hu,
    ?_⟩
  intro hall
  apply List.ext_getElem?
  intro i
  cases hi : (topFive visit sortSlice m)[i]? with
  | none =>
    have hlen : (topFive visit2 sortSlice2 m).length ≤ i := by
      rw [topFive_length visit2 sortSlice2 hv2 hs2 m, ← topFive_length visit sortSlice hv hs m]
      exact List.getElem?_eq_none_iff.mp hi
    exact (List.getElem?_eq_none hlen).symm
  | some e =>
    exact (topFive_unique_position visit visit2 sortSlice sortSlice2 hv hv2 hs hs2 m i e hi
      (hall e (List.getElem?_mem hi))).symm

theorem insertBackward_map {α : Type} (less : α → α → Bool) (σ : α → α)
    (hσ : ∀ a b, less (σ a) (σ b) = less a b) (x : α) (l : List α) :
    insertBackward less (σ x) (l.map σ) = (insertBackward less x l).map σ := by
  induction l with
  | nil => rfl
  | cons y rest ih =>
    simp only [List.map_cons, insertBackward, hσ]
    split
    · rw [ih, List.map_cons]
    · rw [List.map_cons, List.map_cons]

theorem insertionSortSlice_map (σ : SenderCount → SenderCount)
    (less : SenderCount → SenderCount → Bool)
    (hσ : ∀ a b, less (σ a) (σ b) = less a b) (l : List SenderCount) :
    insertionSortSlice (l.map σ) less = (insertionSortSlice l less).map σ := by
  unfold insertionSortSlice
  rw [List.map_reverse]
  congr 1
  have h : ∀ acc : List SenderCount,
      (l.map σ).foldl (fun sortedRev x => insertBackward less x sortedRev) (acc.map σ)
        = (l.foldl (fun sortedRev x => insertBackward less x sortedRev) acc).map σ := by
    induction l with
    | nil => intro acc; rfl
    | cons x rest ih =>
      intro acc
      rw [List.map_cons, List.foldl_cons, List.foldl_cons, insertBackward_map less σ hσ, ih]
  exact h []

theorem exists_other_key (m : GoMap GoString Nat) (hnd : (m.map Prod.fst).Nodup)
    (k : GoString) (c : Nat) (hk : (k, c) ∈ m) (hshare : ¬ CountUnique m c) :
    ∃ k2, k2 ≠ k ∧ (k2, c) ∈ m := by
  obtain ⟨l1, l2, rfl⟩ := List.append_of_mem hk
  unfold CountUnique at hshare
  rw [List.map_append, List.map_cons, List.count_append, List.count_cons] at hshare
  simp only [beq_self_eq_true, if_true] at hshare
  rw [List.map_append, List.map_cons, List.nodup_append, List.nodup_cons] at hnd
  obtain ⟨_, ⟨hk2, _⟩, hdisj⟩ := hnd
  by_cases h1 : (l1.map Prod.snd).count c = 0
  · have h2 : 0 < (l2.map Prod.snd).count c := by omega
    obtain ⟨p, hp, hpc⟩ := List.mem_map.mp (List.count_pos_iff.mp h2)
    refine ⟨p.1, ?_, ?_⟩
    · intro hpk
      exact hk2 (List.mem_map.mpr ⟨p, hp, hpk⟩)
    · rw [← hpc]
      exact List.mem_append_right _ (List.mem_cons_of_mem _ hp)
  · obtain ⟨p, hp, hpc⟩ := List.mem_map.mp (List.count_pos_iff.mp (Nat.pos_of_ne_zero h1))
    refine ⟨p.1, ?_, ?_⟩
    · intro hpk
      exact hdisj (List.mem_map.mpr ⟨p, hp, hpk⟩) (List.mem_cons_self _ _)
    · rw [← hpc]
      exact List.mem_append_left _ hp

/-- Where a kept count belongs to several keys, the list is not determined: another
visiting order of the `range` loop gives another list. -/
theorem topFive_not_determined (visit : GoMap GoString Nat → List (GoString × Nat))
    (sortSlice : List SenderCount → (SenderCount → SenderCount → Bool) → List SenderCount)
    (hv : RangeVisits visit) (hs : SortsSlice sortSlice) (m : GoMap GoString Nat)
    (hnd : (m.map Prod.fst).Nodup) (e : SenderCount) (he : e ∈ topFive visit sortSlice m)
    (hshare : ¬ CountUnique m e.Count) :
    ∃ visit2 : GoMap GoString Nat → List (GoString × Nat),
      RangeVisits visit2
        ∧ topFive visit2 insertionSortSlice m ≠ topFive visitInOrder insertionSortSlice m := by
  classical
  have hcounts := topFive_counts_eq visit visitInOrder sortSlice insertionSortSlice hv
    rangeVisits_visitInOrder hs sortsSlice_insertionSortSlice m
  have hc : e.Count ∈ (topFive visitInOrder insertionSortSlice m).map SenderCount.Count := by
    rw [← hcounts]
    exact List.mem_map.mpr ⟨e, he, rfl⟩
  obtain ⟨x, hx, hxc⟩ := List.mem_map.mp hc
  have hxm : (x.Email, x.Count) ∈ m :=
    GoMap.mem_of_get? m _ _ (topFive_mem visitInOrder insertionSortSlice
      rangeVisits_visitInOrder sortsSlice_insertionSortSlice m hnd x hx)
  rw [← hxc] at hshare
  obtain ⟨k2, hk2, hk2m⟩ := exists_other_key m hnd x.Email x.Count hxm hshare
  have hτ2 : ∀ p : GoString × Nat,
      (Equiv.swap (x.Email, x.Count) (k2, x.Count) p).2 = p.2 := by
    intro p
    rw [Equiv.swap_apply_def]
    split
    · rename_i h
      rw [h]
    · split
      · rename_i h
        rw [h]
      · rfl
  have hτmem : ∀ p : GoString × Nat,
      Equiv.swap (x.Email, x.Count) (k2, x.Count) p ∈ m ↔ p ∈ m := by
    intro p
    rw [Equiv.swap_apply_def]
    split
    · rename_i h
      rw [h]
      exact ⟨fun _ => hxm, fun _ => hk2m⟩
    · split
      · rename_i h
        rw [h]
        exact ⟨fun _ => hk2m, fun _ => hxm⟩
      · exact Iff.rfl
  have hperm : (m.map (Equiv.swap (x.Email, x.Count) (k2, x.Count))).Perm m := by
    rw [List.perm_ext_iff_of_nodup
      ((List.Nodup.of_map Prod.fst hnd).map (Equiv.injective _)) (List.Nodup.of_map Prod.fst hnd)]
    intro p
    rw [List.mem_map]
    constructor
    · rintro ⟨q, hq, rfl⟩
      exact (hτmem q).mpr hq
    · intro hp
      exact ⟨Equiv.swap (x.Email, x.Count) (k2, x.Count) p, (hτmem p).mpr hp,
        Equiv.swap_apply_self _ _ _⟩
  refine ⟨fun m2 =>
    if (m2.map (Equiv.swap (x.Email, x.Count) (k2, x.Count))).Perm m2
    then m2.map (Equiv.swap (x.Email, x.Count) (k2, x.Count)) else m2, ?_, ?_⟩
  · intro m2
    simp only []
    split
    · assumption
    · exact List.Perm.refl m2
  · have hmap : topFive (fun m2 =>
          if (m2.map (Equiv.swap (x.Email, x.Count) (k2, x.Count))).Perm m2
          then m2.map (Equiv.swap (x.Email, x.Count) (k2, x.Count)) else m2)
          insertionSortSlice m
        = (topFive visitInOrder insertionSortSlice m).map (fun s =>
            SenderCount.mk (Equiv.swap (x.Email, x.Count) (k2, x.Count) (s.Email, s.Count)).1
              (Equiv.swap (x.Email, x.Count) (k2, x.Count) (s.Email, s.Count)).2) := by
      rw [topFive_eq_take, topFive_eq_take]
      simp only [if_pos hperm, visitInOrder]
      rw [List.map_take, ← insertionSortSlice_map]
      · rw [List.map_map, List.map_map]
        rfl
      · intro a b
        simp only [lessByCount, hτ2]
    rw [hmap]
    intro heq
    obtain ⟨i, hi⟩ := List.mem_iff_getElem?.mp hx
    have h1 := congrArg (fun l : List SenderCount => l[i]?) heq
    simp only [List.getElem?_map, hi, Option.map_some'] at h1
    rw [Equiv.swap_apply_left] at h1
    have h2 := congrArg SenderCount.Email (Option.some.inj h1)
    exact hk2 h2

theorem analyzeReadStatus_closed {F : Type} (fl : Float64Ops F) (emails : List EmailInfo) :
    analyzeReadStatus fl emails
      = ((emails.filter (fun e => e.IsRead)).length,
         (emails.filter (fun e => !e.IsRead)).length,
         (if emails.length > 0 then
            fl.mul (fl.div (fl.ofInt (emails.filter (fun e => e.IsRead)).length)
              (fl.ofInt emails.length)) (fl.ofInt 100)
          else fl.zero),
         (if emails.length > 0 then
            fl.mul (fl.div (fl.ofInt (emails.filter (fun e => !e.IsRead)).length)
              (fl.ofInt emails.length)) (fl.ofInt 100)
          else fl.zero)) := by
  have htot := length_read_add_unread emails
  unfold analyzeReadStatus
  simp only [foldl_tallyRead, Nat.zero_add, htot]
  split <;> rfl

theorem findRepliedEmails_closed (ct : Char → Char) (received sent : List EmailInfo) :
    findRepliedEmails ct received sent
      = if sent = [] then (0, 0)
        else ((received.filter (isReplied ct sent)).length,
              (received.filter (isSameDayReply ct sent)).length) := by
  by_cases h : sent = []
  · subst h
    rfl
  · rw [if_neg h]
    exact findRepliedEmails_eq ct received sent h

theorem classifyEmails_closed (ct : Char → Char) (emails : List EmailInfo) :
    classifyEmails ct emails
      = ((emails.filter (fun e =>
            !hasKeyword ct approvalKeywords e && !hasKeyword ct responseKeywords e)).length,
         (emails.filter (fun e => hasKeyword ct approvalKeywords e)).length,
         (emails.filter (fun e =>
            !hasKeyword ct approvalKeywords e && hasKeyword ct responseKeywords e)).length) := by
  unfold classifyEmails
  rw [foldl_classifyOne]
  simp

/-- C12, amended.  `analyzeReadStatus`, `findRepliedEmails` and `classifyEmails` are
functions of their input sequences: each result is an expression in the sequences
alone, with no map, visiting order or sort in it.  Two runs of
`getTopSendersAndRecipients` on the same sequences, whatever the visiting orders
of their `range` loops and their sorts, agree up to ties: the lists show the same
`Count` at every position, the same entry wherever the count belongs to one key
only, and are equal when every count kept belongs to one key only.  Where a count
kept belongs to several keys the list is not determined: another visiting order
gives another list. -/
theorem runs_agree_up_to_ties {F : Type} (fl : Float64Ops F) (ct : Char → Char)
    (visitS visitR visitS2 visitR2 : GoMap GoString Nat → List (GoString × Nat))
    (sortSlice sortSlice2 : List SenderCount → (SenderCount → SenderCount → Bool) →
      List SenderCount)
    (hS : RangeVisits visitS) (hR : RangeVisits visitR)
    (hS2 : RangeVisits visitS2) (hR2 : RangeVisits visitR2)
    (hs : SortsSlice sortSlice) (hs2 : SortsSlice sortSlice2)
    (received sent : List EmailInfo) :
    analyzeReadStatus fl received
        = ((received.filter (fun e => e.IsRead)).length,
           (received.filter (fun e => !e.IsRead)).length,
           (if received.length > 0 then
              fl.mul (fl.div (fl.ofInt (received.filter (fun e => e.IsRead)).length)
                (fl.ofInt received.length)) (fl.ofInt 100)
            else fl.zero),
           (if received.length > 0 then
              fl.mul (fl.div (fl.ofInt (received.filter (fun e => !e.IsRead)).length)
                (fl.ofInt received.length)) (fl.ofInt 100)
            else fl.zero))
      ∧ findRepliedEmails ct received sent
        = (if sent = [] then (0, 0)
           else ((received.filter (isReplied ct sent)).length,
                 (received.filter (isSameDayReply ct sent)).length))
      ∧ classifyEmails ct received
        = ((received.filter (fun e =>
              !hasKeyword ct approvalKeywords e && !hasKeyword ct responseKeywords e)).length,
           (received.filter (fun e => hasKeyword ct approvalKeywords e)).length,
           (received.filter (fun e =>
              !hasKeyword ct approvalKeywords e && hasKeyword ct responseKeywords e)).length)
      ∧ AgreeUpToTies (senderCounts received)
          (getTopSendersAndRecipients visitS visitR sortSlice received sent).1
          (getTopSendersAndRecipients visitS2 visitR2 sortSlice2 received sent).1
      ∧ AgreeUpToTies (recipientCounts sent)
          (getTopSendersAndRecipients visitS visitR sortSlice received sent).2
          (getTopSendersAndRecipients visitS2 visitR2 sortSlice2 received sent).2
      ∧ ((∃ e ∈ (getTopSendersAndRecipients visitS visitR sortSlice received sent).1,
            ¬ CountUnique (senderCounts received) e.Count) →
          ∃ visitS3 : GoMap GoString Nat → List (GoString × Nat), RangeVisits visitS3
            ∧ (getTopSendersAndRecipients visitS3 visitR insertionSortSlice received sent).1
              ≠ (getTopSendersAndRecipients visitInOrder visitR insertionSortSlice
                  received sent).1)
      ∧ ((∃ e ∈ (getTopSendersAndRecipients visitS visitR sortSlice received sent).2,
            ¬ CountUnique (recipientCounts sent) e.Count) →
          ∃ visitR3 : GoMap GoString Nat → List (GoString × Nat), RangeVisits visitR3
            ∧ (getTopSendersAndRecipients visitS visitR3 insertionSortSlice received sent).2
              ≠ (getTopSendersAndRecipients visitS visitInOrder insertionSortSlice
                  received sent).2) := by
  refine ⟨analyzeReadStatus_closed fl received, findRepliedEmails_closed ct received sent,
    classifyEmails_closed ct received, ?_, ?_, ?_, ?_⟩
  · exact topFive_agree visitS visitS2 sortSlice sortSlice2 hS hS2 hs hs2 _
  · exact topFive_agree visitR visitR2 sortSlice sortSlice2 hR hR2 hs hs2 _
  · rintro ⟨e, he, hshare⟩
    exact topFive_not_determined visitS sortSlice hS hs _ (senderCounts_nodup received)
      e he hshare
  · rintro ⟨e, he, hshare⟩
    exact topFive_not_determined visitR sortSlice hR hs _ (recipientCounts_nodup sent)
      e he hshare

/-- Witness of the amended C12 on senders with 7, 6, 5, 4, 3, 1 and 1 records: the tie of
the two senders left out does not reach the list, and the runs that start at slot
0 and at slot 1 return the same five entries. -/
theorem runs_agree_up_to_ties_witness :
    RangeVisits (visitFrom 0) ∧ RangeVisits (visitFrom 1) ∧ SortsSlice insertionSortSlice
      ∧ AgreeUpToTies (senderCounts gradedReceived)
          (getTopSendersAndRecipients (visitFrom 0) (visitFrom 0) insertionSortSlice
            gradedReceived tiedSent).1
          (getTopSendersAndRecipients (visitFrom 1) (visitFrom 1) insertionSortSlice
            gradedReceived tiedSent).1
      ∧ (∀ e ∈ (getTopSendersAndRecipients (visitFrom 0) (visitFrom 0) insertionSortSlice
            gradedReceived tiedSent).1, CountUnique (senderCounts gradedReceived) e.Count)
      ∧ ¬ CountUnique (senderCounts gradedReceived) 1
      ∧ (getTopSendersAndRecipients (visitFrom 0) (visitFrom 0) insertionSortSlice
            gradedReceived tiedSent).1
          = [⟨"a".toList, 7⟩, ⟨"b".toList, 6⟩, ⟨"c".toList, 5⟩, ⟨"d".toList, 4⟩,
              ⟨"e".toList, 3⟩]
      ∧ (getTopSendersAndRecipients (visitFrom 1) (visitFrom 1) insertionSortSlice
            gradedReceived tiedSent).1
          = [⟨"a".toList, 7⟩, ⟨"b".toList, 6⟩, ⟨"c".toList, 5⟩, ⟨"d".toList, 4⟩,
              ⟨"e".toList, 3⟩] :=
  ⟨rangeVisits_visitFrom 0, rangeVisits_visitFrom 1, sortsSlice_insertionSortSlice,
    (runs_agree_up_to_ties exactOps id (visitFrom 0) (visitFrom 0) (visitFrom 1) (visitFrom 1)
      insertionSortSlice insertionSortSlice (rangeVisits_visitFrom 0) (rangeVisits_visitFrom 0)
      (rangeVisits_visitFrom 1) (rangeVisits_visitFrom 1) sortsSlice_insertionSortSlice
      sortsSlice_insertionSortSlice gradedReceived tiedSent).2.2.2.1,
    by unfold CountUnique; decide, by unfold CountUnique; decide, by decide, by decide⟩

end EmailAnalyzer
